import Mathlib

namespace Castomat

inductive Op
  | add | sub | mul | div | mod | pow
  deriving DecidableEq, Repr

inductive NumLit
  | dec (num den : Nat)
  | piL
  | eL
  deriving DecidableEq, Repr

inductive Token
  | num (l : NumLit)
  | op (o : Op)
  | lparen
  | rparen
  | func (name : String)
  | comma
  deriving DecidableEq, Repr

def MATH_FUNCTIONS : List String :=
  ["sqrt", "sin", "cos", "tan", "abs", "round", "floor", "ceil", "log", "log10", "exp", "min", "max"]

def isNumChar (c : Char) : Bool := c.isDigit || c = '.'

def isIdentChar (c : Char) : Bool := c.isAlpha || c.isDigit

def digitsToNat (cs : List Char) : Nat :=
  cs.foldl (fun acc c => 10 * acc + (c.toNat - '0'.toNat)) 0

/-- JS `parseFloat` restricted to the strings the tokenizer feeds it (runs of
digits and dots): parse the longest valid numeric prefix, `none` when no valid
prefix exists. The value is returned as an exact numerator/denominator pair. -/
def parseFloatN (cs : List Char) : Option (Nat × Nat) :=
  let intPart := cs.takeWhile Char.isDigit
  let rest := cs.dropWhile Char.isDigit
  match rest with
  | '.' :: rest2 =>
    let fracPart := rest2.takeWhile Char.isDigit
    if intPart.isEmpty && fracPart.isEmpty then none
    else some (digitsToNat intPart * 10 ^ fracPart.length + digitsToNat fracPart, 10 ^ fracPart.length)
  | _ => if intPart.isEmpty then none else some (digitsToNat intPart, 1)

/-- The `.replace(/\^/g, '**')` step of `tokenize`. -/
def caretExpand : List Char → List Char
  | [] => []
  | c :: cs => (if c = '^' then ['*', '*'] else [c]) ++ caretExpand cs

/-- The ECMAScript whitespace class: exactly the code points matched by the
regex class `\s` and removed by `String.prototype.trim` (WhiteSpace together
with LineTerminator): tab, LF, VT, FF, CR, space, no-break space, Ogham space
mark, the Zs spaces U+2000..U+200A, line separator, paragraph separator,
narrow no-break space, medium mathematical space, ideographic space, and
zero-width no-break space. -/
def isJsWhitespace (c : Char) : Bool :=
  (9 ≤ c.toNat && c.toNat ≤ 13) || c.toNat = 32 || c.toNat = 160 ||
  c.toNat = 5760 || (8192 ≤ c.toNat && c.toNat ≤ 8202) || c.toNat = 8232 ||
  c.toNat = 8233 || c.toNat = 8239 || c.toNat = 8287 || c.toNat = 12288 ||
  c.toNat = 65279

/-- The preprocessing of `tokenize`: strip all whitespace (the JS regex
`/\s+/g`), rewrite `^` to `**`. -/
def stripAndCaret (cs : List Char) : List Char :=
  caretExpand (cs.filter (fun c => !isJsWhitespace c))

/-- The single-character operator and punctuation tokens of the scanner. -/
def charToken (c : Char) : Option Token :=
  if c = '+' then some (Token.op Op.add)
  else if c = '-' then some (Token.op Op.sub)
  else if c = '/' then some (Token.op Op.div)
  else if c = '%' then some (Token.op Op.mod)
  else if c = '(' then some Token.lparen
  else if c = ')' then some Token.rparen
  else if c = ',' then some Token.comma
  else none

/-- The identifier classification of the scanner: the maximal
letters-and-digits run starting at a letter, lowercased, must be `pi`, `e`,
or a whitelisted function name; anything else aborts. -/
def identToken (c : Char) (tail : List Char) : Option Token :=
  let lower := String.mk ((c :: tail).map Char.toLower)
  if lower = "pi" then some (Token.num NumLit.piL)
  else if lower = "e" then some (Token.num NumLit.eL)
  else if MATH_FUNCTIONS.contains lower then some (Token.func lower)
  else none

/-- The scanning loop of `tokenize`. The fuel argument is an embedding artifact
(the loop advances through the string, consuming at least one character per
iteration, so fuel equal to the length of the input never runs out). -/
def tokenizeGo : Nat → List Char → Option (List Token)
  | _, [] => some []
  | 0, _ :: _ => none
  | fuel + 1, c :: cs =>
    if isNumChar c then
      match parseFloatN (c :: cs.takeWhile isNumChar) with
      | none => none
      | some v => (tokenizeGo fuel (cs.dropWhile isNumChar)).map (Token.num (NumLit.dec v.1 v.2) :: ·)
    else if c = '*' then
      match cs with
      | '*' :: cs2 => (tokenizeGo fuel cs2).map (Token.op Op.pow :: ·)
      | _ => (tokenizeGo fuel cs).map (Token.op Op.mul :: ·)
    else
      match charToken c with
      | some t => (tokenizeGo fuel cs).map (t :: ·)
      | none =>
        if c.isAlpha then
          match identToken c (cs.takeWhile isIdentChar) with
          | some t => (tokenizeGo fuel (cs.dropWhile isIdentChar)).map (t :: ·)
          | none => none
        else none

/-- `tokenize` from the source: the empty list doubles as the failure signal. -/
def tokenize (s : String) : List Token :=
  match tokenizeGo (stripAndCaret s.data).length (stripAndCaret s.data) with
  | none => []
  | some ts => ts

/-- JS `String.prototype.trim` (removing the JS whitespace class from both
ends), embedded structurally over the character list. -/
def trimL (cs : List Char) : List Char :=
  ((cs.dropWhile isJsWhitespace).reverse.dropWhile isJsWhitespace).reverse

/-! ## The value domain

JS numbers are IEEE doubles; the embedding idealizes the finite doubles as
exact real numbers and keeps the three non-finite values explicit. -/

inductive JSNum
  | fin (x : ℝ)
  | nan
  | inf
  | ninf

/-- `Number.isFinite`. -/
def isFiniteJS : JSNum → Bool
  | .fin _ => true
  | _ => false

/-- `Number.isNaN`. -/
def isNaNJS : JSNum → Bool
  | .nan => true
  | _ => false

/-- The `right === 0` test guarding `/` and `%` in `parseTerm`. -/
noncomputable def isZeroJS : JSNum → Bool
  | .fin x => if x = 0 then true else false
  | _ => false

/-- The numeric value of a literal token (`parseFloat` output, `Math.PI`, `Math.E`). -/
noncomputable def ofLit : NumLit → JSNum
  | .dec n d => .fin ((n : ℝ) / (d : ℝ))
  | .piL => .fin Real.pi
  | .eL => .fin (Real.exp 1)

noncomputable def addJS : JSNum → JSNum → JSNum
  | .fin a, .fin b => .fin (a + b)
  | .nan, _ => .nan
  | _, .nan => .nan
  | .inf, .ninf => .nan
  | .ninf, .inf => .nan
  | .inf, _ => .inf
  | _, .inf => .inf
  | .ninf, _ => .ninf
  | _, .ninf => .ninf

noncomputable def subJS : JSNum → JSNum → JSNum
  | .fin a, .fin b => .fin (a - b)
  | .nan, _ => .nan
  | _, .nan => .nan
  | .inf, .inf => .nan
  | .ninf, .ninf => .nan
  | .inf, _ => .inf
  | .ninf, _ => .ninf
  | _, .inf => .ninf
  | _, .ninf => .inf

noncomputable def mulJS : JSNum → JSNum → JSNum
  | .fin a, .fin b => .fin (a * b)
  | .nan, _ => .nan
  | _, .nan => .nan
  | .inf, .inf => .inf
  | .inf, .ninf => .ninf
  | .ninf, .inf => .ninf
  | .ninf, .ninf => .inf
  | .inf, .fin b => if b = 0 then .nan else if 0 < b then .inf else .ninf
  | .fin a, .inf => if a = 0 then .nan else if 0 < a then .inf else .ninf
  | .ninf, .fin b => if b = 0 then .nan else if 0 < b then .ninf else .inf
  | .fin a, .ninf => if a = 0 then .nan else if 0 < a then .ninf else .inf

/-- Raw JS division (the parser only reaches it with a non-zero divisor). -/
noncomputable def divJS : JSNum → JSNum → JSNum
  | .fin a, .fin b =>
    if b = 0 then (if a = 0 then .nan else if 0 < a then .inf else .ninf)
    else .fin (a / b)
  | .nan, _ => .nan
  | _, .nan => .nan
  | .inf, .inf => .nan
  | .inf, .ninf => .nan
  | .ninf, .inf => .nan
  | .ninf, .ninf => .nan
  | .inf, .fin b => if 0 ≤ b then .inf else .ninf
  | .ninf, .fin b => if 0 ≤ b then .ninf else .inf
  | .fin _, .inf => .fin 0
  | .fin _, .ninf => .fin 0

/-- Truncation toward zero, as used by the JS `%` remainder. -/
noncomputable def jsTrunc (x : ℝ) : ℝ :=
  if 0 ≤ x then (⌊x⌋ : ℝ) else (⌈x⌉ : ℝ)

/-- Raw JS remainder `%` (sign follows the dividend). -/
noncomputable def modJS : JSNum → JSNum → JSNum
  | .fin a, .fin b => if b = 0 then .nan else .fin (a - b * jsTrunc (a / b))
  | .nan, _ => .nan
  | _, .nan => .nan
  | .inf, _ => .nan
  | .ninf, _ => .nan
  | .fin a, .inf => .fin a
  | .fin a, .ninf => .fin a

/-- Unary minus. -/
noncomputable def negJS : JSNum → JSNum
  | .fin a => .fin (-a)
  | .nan => .nan
  | .inf => .ninf
  | .ninf => .inf

/-- `Math.pow` / `**` on the idealized domain (ECMAScript exponentiate). -/
noncomputable def powJS : JSNum → JSNum → JSNum
  | a, .fin y =>
    if y = 0 then .fin 1
    else
      match a with
      | .fin x =>
        if x = 0 then (if 0 < y then .fin 0 else .inf)
        else if 0 < x then .fin (x ^ y)
        else if (⌊y⌋ : ℝ) = y then .fin (x ^ ⌊y⌋)
        else .nan
      | .nan => .nan
      | .inf => if 0 < y then .inf else .fin 0
      | .ninf =>
        if 0 < y then (if (⌊y⌋ : ℝ) = y ∧ ⌊y⌋ % 2 ≠ 0 then .ninf else .inf)
        else .fin 0
  | _, .nan => .nan
  | .nan, _ => .nan
  | .fin x, .inf => if 1 < |x| then .inf else if |x| = 1 then .nan else .fin 0
  | .fin x, .ninf => if 1 < |x| then .fin 0 else if |x| = 1 then .nan else .inf
  | .inf, .inf => .inf
  | .ninf, .inf => .inf
  | .inf, .ninf => .fin 0
  | .ninf, .ninf => .fin 0

/-! ## The whitelisted `Math` functions (`callMathFunc`) -/

noncomputable def sqrtJS : JSNum → JSNum
  | .fin x => if x < 0 then .nan else .fin (Real.sqrt x)
  | .nan => .nan
  | .inf => .inf
  | .ninf => .nan

noncomputable def sinJS : JSNum → JSNum
  | .fin x => .fin (Real.sin x)
  | _ => .nan

noncomputable def cosJS : JSNum → JSNum
  | .fin x => .fin (Real.cos x)
  | _ => .nan

noncomputable def tanJS : JSNum → JSNum
  | .fin x => .fin (Real.tan x)
  | _ => .nan

noncomputable def absJS : JSNum → JSNum
  | .fin x => .fin |x|
  | .nan => .nan
  | .inf => .inf
  | .ninf => .inf

/-- `Math.round`: half-up rounding, `⌊x + 1/2⌋`. -/
noncomputable def roundJS : JSNum → JSNum
  | .fin x => .fin (⌊x + 1 / 2⌋ : ℝ)
  | .nan => .nan
  | .inf => .inf
  | .ninf => .ninf

noncomputable def floorJS : JSNum → JSNum
  | .fin x => .fin (⌊x⌋ : ℝ)
  | .nan => .nan
  | .inf => .inf
  | .ninf => .ninf

noncomputable def ceilJS : JSNum → JSNum
  | .fin x => .fin (⌈x⌉ : ℝ)
  | .nan => .nan
  | .inf => .inf
  | .ninf => .ninf

noncomputable def logJS : JSNum → JSNum
  | .fin x => if x = 0 then .ninf else if x < 0 then .nan else .fin (Real.log x)
  | .nan => .nan
  | .inf => .inf
  | .ninf => .nan

noncomputable def log10JS : JSNum → JSNum
  | .fin x => if x = 0 then .ninf else if x < 0 then .nan else .fin (Real.logb 10 x)
  | .nan => .nan
  | .inf => .inf
  | .ninf => .nan

noncomputable def expJS : JSNum → JSNum
  | .fin x => .fin (Real.exp x)
  | .nan => .nan
  | .inf => .inf
  | .ninf => .fin 0

/-- Binary minimum with NaN poisoning, as folded by `Math.min(...args)`. -/
noncomputable def minJS2 : JSNum → JSNum → JSNum
  | .nan, _ => .nan
  | _, .nan => .nan
  | .fin a, .fin b => .fin (min a b)
  | .ninf, _ => .ninf
  | _, .ninf => .ninf
  | .inf, b => b
  | a, .inf => a

noncomputable def maxJS2 : JSNum → JSNum → JSNum
  | .nan, _ => .nan
  | _, .nan => .nan
  | .fin a, .fin b => .fin (max a b)
  | .inf, _ => .inf
  | _, .inf => .inf
  | .ninf, b => b
  | a, .ninf => a

/-- `Math.min(...args)`: `Infinity` when the list is empty. -/
noncomputable def minJS (args : List JSNum) : JSNum :=
  args.foldl minJS2 .inf

/-- `Math.max(...args)`: `-Infinity` when the list is empty. -/
noncomputable def maxJS (args : List JSNum) : JSNum :=
  args.foldl maxJS2 .ninf

/-- `args[0]`: JS yields `undefined` on an empty argument list, and every
unary `Math` function maps `undefined` to `NaN`. -/
def arg0 (args : List JSNum) : JSNum :=
  args.headD .nan

/-- The degree-to-radian helper `rad` of `callMathFunc`. -/
noncomputable def rad (x : JSNum) : JSNum :=
  divJS (mulJS x (.fin Real.pi)) (.fin 180)

/-- `callMathFunc` from the source. -/
noncomputable def callMathFunc : String → List JSNum → JSNum
  | "sqrt", args => sqrtJS (arg0 args)
  | "sin", args => sinJS (rad (arg0 args))
  | "cos", args => cosJS (rad (arg0 args))
  | "tan", args => tanJS (rad (arg0 args))
  | "abs", args => absJS (arg0 args)
  | "round", args => roundJS (arg0 args)
  | "floor", args => floorJS (arg0 args)
  | "ceil", args => ceilJS (arg0 args)
  | "log", args => logJS (arg0 args)
  | "log10", args => log10JS (arg0 args)
  | "exp", args => expJS (arg0 args)
  | "min", args => minJS args
  | "max", args => maxJS args
  | _, _ => .nan

/-! ## The recursive-descent parser / evaluator

The source walks a module-scope token array with a mutable cursor; the
embedding passes the remaining token list explicitly and returns the rest.
The fuel argument is an embedding artifact: every cycle through the mutually
recursive rules consumes at least one token, so the fuel chosen by
`evaluateMathExpression` (7 times the token count plus 8) never runs out. -/

mutual

/-- `parseExpr` from the source. -/
noncomputable def parseExpr : Nat → List Token → Option (JSNum × List Token)
  | 0, _ => none
  | fuel + 1, ts =>
    match parseTerm fuel ts with
    | none => none
    | some (left, r) => parseExprLoop fuel left r

/-- The `while` loop of `parseExpr`. -/
noncomputable def parseExprLoop : Nat → JSNum → List Token → Option (JSNum × List Token)
  | 0, _, _ => none
  | fuel + 1, left, ts =>
    match ts with
    | Token.op Op.add :: r =>
      match parseTerm fuel r with
      | none => none
      | some (right, r2) => parseExprLoop fuel (addJS left right) r2
    | Token.op Op.sub :: r =>
      match parseTerm fuel r with
      | none => none
      | some (right, r2) => parseExprLoop fuel (subJS left right) r2
    | _ => some (left, ts)

/-- `parseTerm` from the source. -/
noncomputable def parseTerm : Nat → List Token → Option (JSNum × List Token)
  | 0, _ => none
  | fuel + 1, ts =>
    match parseFactor fuel ts with
    | none => none
    | some (left, r) => parseTermLoop fuel left r

/-- The `while` loop of `parseTerm`; `/` and `%` by zero yield `NaN`. -/
noncomputable def parseTermLoop : Nat → JSNum → List Token → Option (JSNum × List Token)
  | 0, _, _ => none
  | fuel + 1, left, ts =>
    match ts with
    | Token.op Op.mul :: r =>
      match parseFactor fuel r with
      | none => none
      | some (right, r2) => parseTermLoop fuel (mulJS left right) r2
    | Token.op Op.div :: r =>
      match parseFactor fuel r with
      | none => none
      | some (right, r2) =>
        parseTermLoop fuel (if isZeroJS right then .nan else divJS left right) r2
    | Token.op Op.mod :: r =>
      match parseFactor fuel r with
      | none => none
      | some (right, r2) =>
        parseTermLoop fuel (if isZeroJS right then .nan else modJS left right) r2
    | _ => some (left, ts)

/-- `parseFactor` from the source (right-associative `**`). -/
noncomputable def parseFactor : Nat → List Token → Option (JSNum × List Token)
  | 0, _ => none
  | fuel + 1, ts =>
    match parsePower fuel ts with
    | none => none
    | some (base, r) =>
      match r with
      | Token.op Op.pow :: r2 =>
        match parseFactor fuel r2 with
        | none => none
        | some (e, r3) => some (powJS base e, r3)
      | _ => some (base, r)

/-- `parsePower` from the source (unary sign, recursing into itself). -/
noncomputable def parsePower : Nat → List Token → Option (JSNum × List Token)
  | 0, _ => none
  | fuel + 1, ts =>
    match ts with
    | Token.op Op.add :: r => parsePower fuel r
    | Token.op Op.sub :: r =>
      match parsePower fuel r with
      | none => none
      | some (v, r2) => some (negJS v, r2)
    | _ => parseAtom fuel ts

/-- `parseAtom` from the source. -/
noncomputable def parseAtom : Nat → List Token → Option (JSNum × List Token)
  | 0, _ => none
  | fuel + 1, ts =>
    match ts with
    | Token.num l :: r => some (ofLit l, r)
    | Token.lparen :: r =>
      match parseExpr fuel r with
      | none => none
      | some (v, r2) =>
        match r2 with
        | Token.rparen :: r3 => some (v, r3)
        | _ => none
    | Token.func nm :: r =>
      match r with
      | Token.lparen :: r2 => parseCall fuel nm r2
      | _ => none
    | _ => none

/-- The function-application part of `parseAtom`, after `funcName` and `(`
have been consumed: the optional argument list followed by `)`. -/
noncomputable def parseCall : Nat → String → List Token → Option (JSNum × List Token)
  | 0, _, _ => none
  | fuel + 1, nm, ts =>
    match ts with
    | Token.rparen :: r => some (callMathFunc nm [], r)
    | _ =>
      match parseExpr fuel ts with
      | none => none
      | some (v, r2) =>
        match parseArgsLoop fuel r2 with
        | none => none
        | some (args, r3) =>
          match r3 with
          | Token.rparen :: r4 => some (callMathFunc nm (v :: args), r4)
          | _ => none

/-- The argument-list `while` loop of `parseAtom`. -/
noncomputable def parseArgsLoop : Nat → List Token → Option (List JSNum × List Token)
  | 0, _ => none
  | fuel + 1, ts =>
    match ts with
    | Token.comma :: r =>
      match parseExpr fuel r with
      | none => none
      | some (v, r2) =>
        match parseArgsLoop fuel r2 with
        | none => none
        | some (args, r3) => some (v :: args, r3)
    | _ => some ([], ts)

end

/-- `evaluateMathExpression` from the source. -/
noncomputable def evaluateMathExpression (input : String) : Option JSNum :=
  let trimmed := trimL input.data
  if trimmed.isEmpty then none
  else
    let ts := tokenize (String.mk trimmed)
    if ts.isEmpty then none
    else
      match parseExpr (7 * ts.length + 8) ts with
      | none => none
      | some (result, rest) =>
        if rest.isEmpty then
          if isNaNJS result || !isFiniteJS result then none else some result
        else none

/-! ## A computable symbolic mirror of the parser

The parser never branches on computed numeric values (the zero test of `/`
and `%` sits inside the computed value), so running it with symbolic value
nodes and denoting afterwards agrees with the direct run. The mirror is
computable, which lets concrete runs be evaluated by kernel reduction. -/

mutual

inductive SymExpr
  | lit (l : NumLit)
  | neg (a : SymExpr)
  | add (a b : SymExpr)
  | sub (a b : SymExpr)
  | mul (a b : SymExpr)
  | divz (a b : SymExpr)
  | modz (a b : SymExpr)
  | pow (a b : SymExpr)
  | call (nm : String) (args : SymList)

inductive SymList
  | nil
  | cons (a : SymExpr) (as : SymList)

end

mutual

noncomputable def denote : SymExpr → JSNum
  | .lit l => ofLit l
  | .neg a => negJS (denote a)
  | .add a b => addJS (denote a) (denote b)
  | .sub a b => subJS (denote a) (denote b)
  | .mul a b => mulJS (denote a) (denote b)
  | .divz a b => if isZeroJS (denote b) then .nan else divJS (denote a) (denote b)
  | .modz a b => if isZeroJS (denote b) then .nan else modJS (denote a) (denote b)
  | .pow a b => powJS (denote a) (denote b)
  | .call nm args => callMathFunc nm (denoteList args)

noncomputable def denoteList : SymList → List JSNum
  | .nil => []
  | .cons a as => denote a :: denoteList as

end

mutual

def symParseExpr : Nat → List Token → Option (SymExpr × List Token)
  | 0, _ => none
  | fuel + 1, ts =>
    match symParseTerm fuel ts with
    | none => none
    | some (left, r) => symParseExprLoop fuel left r

def symParseExprLoop : Nat → SymExpr → List Token → Option (SymExpr × List Token)
  | 0, _, _ => none
  | fuel + 1, left, ts =>
    match ts with
    | Token.op Op.add :: r =>
      match symParseTerm fuel r with
      | none => none
      | some (right, r2) => symParseExprLoop fuel (SymExpr.add left right) r2
    | Token.op Op.sub :: r =>
      match symParseTerm fuel r with
      | none => none
      | some (right, r2) => symParseExprLoop fuel (SymExpr.sub left right) r2
    | _ => some (left, ts)

def symParseTerm : Nat → List Token → Option (SymExpr × List Token)
  | 0, _ => none
  | fuel + 1, ts =>
    match symParseFactor fuel ts with
    | none => none
    | some (left, r) => symParseTermLoop fuel left r

def symParseTermLoop : Nat → SymExpr → List Token → Option (SymExpr × List Token)
  | 0, _, _ => none
  | fuel + 1, left, ts =>
    match ts with
    | Token.op Op.mul :: r =>
      match symParseFactor fuel r with
      | none => none
      | some (right, r2) => symParseTermLoop fuel (SymExpr.mul left right) r2
    | Token.op Op.div :: r =>
      match symParseFactor fuel r with
      | none => none
      | some (right, r2) => symParseTermLoop fuel (SymExpr.divz left right) r2
    | Token.op Op.mod :: r =>
      match symParseFactor fuel r with
      | none => none
      | some (right, r2) => symParseTermLoop fuel (SymExpr.modz left right) r2
    | _ => some (left, ts)

def symParseFactor : Nat → List Token → Option (SymExpr × List Token)
  | 0, _ => none
  | fuel + 1, ts =>
    match symParsePower fuel ts with
    | none => none
    | some (base, r) =>
      match r with
      | Token.op Op.pow :: r2 =>
        match symParseFactor fuel r2 with
        | none => none
        | some (e, r3) => some (SymExpr.pow base e, r3)
      | _ => some (base, r)

def symParsePower : Nat → List Token → Option (SymExpr × List Token)
  | 0, _ => none
  | fuel + 1, ts =>
    match ts with
    | Token.op Op.add :: r => symParsePower fuel r
    | Token.op Op.sub :: r =>
      match symParsePower fuel r with
      | none => none
      | some (v, r2) => some (SymExpr.neg v, r2)
    | _ => symParseAtom fuel ts

def symParseAtom : Nat → List Token → Option (SymExpr × List Token)
  | 0, _ => none
  | fuel + 1, ts =>
    match ts with
    | Token.num l :: r => some (SymExpr.lit l, r)
    | Token.lparen :: r =>
      match symParseExpr fuel r with
      | none => none
      | some (v, r2) =>
        match r2 with
        | Token.rparen :: r3 => some (v, r3)
        | _ => none
    | Token.func nm :: r =>
      match r with
      | Token.lparen :: r2 => symParseCall fuel nm r2
      | _ => none
    | _ => none

def symParseCall : Nat → String → List Token → Option (SymExpr × List Token)
  | 0, _, _ => none
  | fuel + 1, nm, ts =>
    match ts with
    | Token.rparen :: r => some (SymExpr.call nm SymList.nil, r)
    | _ =>
      match symParseExpr fuel ts with
      | none => none
      | some (v, r2) =>
        match symParseArgsLoop fuel r2 with
        | none => none
        | some (args, r3) =>
          match r3 with
          | Token.rparen :: r4 => some (SymExpr.call nm (SymList.cons v args), r4)
          | _ => none

def symParseArgsLoop : Nat → List Token → Option (SymList × List Token)
  | 0, _ => none
  | fuel + 1, ts =>
    match ts with
    | Token.comma :: r =>
      match symParseExpr fuel r with
      | none => none
      | some (v, r2) =>
        match symParseArgsLoop fuel r2 with
        | none => none
        | some (args, r3) => some (SymList.cons v args, r3)
    | _ => some (SymList.nil, ts)

end

/-- The direct parser run agrees with the symbolic run followed by denotation,
simultaneously for all nine parsing functions. -/
theorem parse_agrees_sym : ∀ fuel : Nat,
    (∀ ts, parseExpr fuel ts = (symParseExpr fuel ts).map (fun p => (denote p.1, p.2)))
    ∧ (∀ a ts, parseExprLoop fuel (denote a) ts =
        (symParseExprLoop fuel a ts).map (fun p => (denote p.1, p.2)))
    ∧ (∀ ts, parseTerm fuel ts = (symParseTerm fuel ts).map (fun p => (denote p.1, p.2)))
    ∧ (∀ a ts, parseTermLoop fuel (denote a) ts =
        (symParseTermLoop fuel a ts).map (fun p => (denote p.1, p.2)))
    ∧ (∀ ts, parseFactor fuel ts = (symParseFactor fuel ts).map (fun p => (denote p.1, p.2)))
    ∧ (∀ ts, parsePower fuel ts = (symParsePower fuel ts).map (fun p => (denote p.1, p.2)))
    ∧ (∀ ts, parseAtom fuel ts = (symParseAtom fuel ts).map (fun p => (denote p.1, p.2)))
    ∧ (∀ nm ts, parseCall fuel nm ts = (symParseCall fuel nm ts).map (fun p => (denote p.1, p.2)))
    ∧ (∀ ts, parseArgsLoop fuel ts =
        (symParseArgsLoop fuel ts).map (fun p => (denoteList p.1, p.2))) := by
  intro fuel
  induction fuel with
  | zero =>
    exact ⟨fun _ => rfl, fun _ _ => rfl, fun _ => rfl, fun _ _ => rfl, fun _ => rfl,
      fun _ => rfl, fun _ => rfl, fun _ _ => rfl, fun _ => rfl⟩
  | succ f ih =>
    obtain ⟨ihE, ihEL, ihT, ihTL, ihF, ihP, ihA, ihC, ihArgs⟩ := ih
    refine ⟨?_, ?_, ?_, ?_, ?_, ?_, ?_, ?_, ?_⟩
    · intro ts
      simp only [parseExpr, symParseExpr, ihT]
      cases h : symParseTerm f ts with
      | none => rfl
      | some p =>
        obtain ⟨e, r⟩ := p
        simpa using ihEL e r
    · intro a ts
      rcases ts with _ | ⟨t, r⟩
      · rfl
      rcases t with l | o | _ | _ | nm | _ <;> try rfl
      rcases o with _ | _ | _ | _ | _ | _ <;> try rfl
      · simp only [parseExprLoop, symParseExprLoop, ihT]
        cases h : symParseTerm f r with
        | none => rfl
        | some p =>
          obtain ⟨e, r2⟩ := p
          simpa using ihEL (SymExpr.add a e) r2
      · simp only [parseExprLoop, symParseExprLoop, ihT]
        cases h : symParseTerm f r with
        | none => rfl
        | some p =>
          obtain ⟨e, r2⟩ := p
          simpa using ihEL (SymExpr.sub a e) r2
    · intro ts
      simp only [parseTerm, symParseTerm, ihF]
      cases h : symParseFactor f ts with
      | none => rfl
      | some p =>
        obtain ⟨e, r⟩ := p
        simpa using ihTL e r
    · intro a ts
      rcases ts with _ | ⟨t, r⟩
      · rfl
      rcases t with l | o | _ | _ | nm | _ <;> try rfl
      rcases o with _ | _ | _ | _ | _ | _ <;> try rfl
      · simp only [parseTermLoop, symParseTermLoop, ihF]
        cases h : symParseFactor f r with
        | none => rfl
        | some p =>
          obtain ⟨e, r2⟩ := p
          simpa using ihTL (SymExpr.mul a e) r2
      · simp only [parseTermLoop, symParseTermLoop, ihF]
        cases h : symParseFactor f r with
        | none => rfl
        | some p =>
          obtain ⟨e, r2⟩ := p
          simpa using ihTL (SymExpr.divz a e) r2
      · simp only [parseTermLoop, symParseTermLoop, ihF]
        cases h : symParseFactor f r with
        | none => rfl
        | some p =>
          obtain ⟨e, r2⟩ := p
          simpa using ihTL (SymExpr.modz a e) r2
    · intro ts
      simp only [parseFactor, symParseFactor, ihP]
      cases h : symParsePower f ts with
      | none => rfl
      | some p =>
        obtain ⟨base, r⟩ := p
        rcases r with _ | ⟨t, r2⟩
        · rfl
        rcases t with l | o | _ | _ | nm | _ <;> try rfl
        rcases o with _ | _ | _ | _ | _ | _ <;> try rfl
        show (match parseFactor f r2 with
          | none => none
          | some (e, r3) => some (powJS (denote base) e, r3)) =
          Option.map (fun p => (denote p.1, p.2))
            (match symParseFactor f r2 with
            | none => none
            | some (e, r3) => some (SymExpr.pow base e, r3))
        rw [ihF]
        cases h2 : symParseFactor f r2 with
        | none => rfl
        | some q =>
          obtain ⟨e, r3⟩ := q
          rfl
    · intro ts
      rcases ts with _ | ⟨t, r⟩
      · exact ihA []
      rcases t with l | o | _ | _ | nm | _
      · exact ihA _
      · rcases o with _ | _ | _ | _ | _ | _
        · simpa only [parsePower, symParsePower] using ihP r
        · simp only [parsePower, symParsePower, ihP]
          cases h : symParsePower f r with
          | none => rfl
          | some p =>
            obtain ⟨e, r2⟩ := p
            rfl
        · exact ihA _
        · exact ihA _
        · exact ihA _
        · exact ihA _
      · exact ihA _
      · exact ihA _
      · exact ihA _
      · exact ihA _
    · intro ts
      rcases ts with _ | ⟨t, r⟩
      · rfl
      rcases t with l | o | _ | _ | nm | _ <;> try rfl
      · simp only [parseAtom, symParseAtom, ihE]
        cases h : symParseExpr f r with
        | none => rfl
        | some p =>
          obtain ⟨e, r2⟩ := p
          simp only [Option.map_some]
          rcases r2 with _ | ⟨t2, r3⟩
          · rfl
          rcases t2 with l2 | o2 | _ | _ | nm2 | _ <;> rfl
      · rcases r with _ | ⟨t2, r2⟩
        · rfl
        rcases t2 with l2 | o2 | _ | _ | nm2 | _ <;> try rfl
        simpa only [parseAtom, symParseAtom] using ihC nm r2
    · intro nm ts
      have hcont : ∀ us : List Token,
          (match parseExpr f us with
            | none => none
            | some (v, r2) =>
              match parseArgsLoop f r2 with
              | none => none
              | some (args, r3) =>
                match r3 with
                | Token.rparen :: r4 => some (callMathFunc nm (v :: args), r4)
                | _ => none) =
          Option.map (fun p => (denote p.1, p.2))
            (match symParseExpr f us with
            | none => none
            | some (v, r2) =>
              match symParseArgsLoop f r2 with
              | none => none
              | some (args, r3) =>
                match r3 with
                | Token.rparen :: r4 => some (SymExpr.call nm (SymList.cons v args), r4)
                | _ => none) := by
        intro us
        rw [ihE]
        cases h : symParseExpr f us with
        | none => rfl
        | some p =>
          obtain ⟨e, r2⟩ := p
          show (match parseArgsLoop f r2 with
            | none => none
            | some (args, r3) =>
              match r3 with
              | Token.rparen :: r4 => some (callMathFunc nm (denote e :: args), r4)
              | _ => none) =
            Option.map (fun p => (denote p.1, p.2))
              (match symParseArgsLoop f r2 with
              | none => none
              | some (args, r3) =>
                match r3 with
                | Token.rparen :: r4 => some (SymExpr.call nm (SymList.cons e args), r4)
                | _ => none)
          rw [ihArgs]
          cases h2 : symParseArgsLoop f r2 with
          | none => rfl
          | some q =>
            obtain ⟨args, r3⟩ := q
            rcases r3 with _ | ⟨t3, r4⟩
            · rfl
            rcases t3 with l3 | o3 | _ | _ | nm3 | _ <;> rfl
      rcases ts with _ | ⟨t, r⟩
      · exact hcont []
      rcases t with l | o | _ | _ | nm2 | _
      · exact hcont _
      · exact hcont _
      · exact hcont _
      · rfl
      · exact hcont _
      · exact hcont _
    · intro ts
      rcases ts with _ | ⟨t, r⟩
      · rfl
      rcases t with l | o | _ | _ | nm | _ <;> try rfl
      show (match parseExpr f r with
        | none => none
        | some (v, r2) =>
          match parseArgsLoop f r2 with
          | none => none
          | some (args, r3) => some (v :: args, r3)) =
        Option.map (fun p => (denoteList p.1, p.2))
          (match symParseExpr f r with
          | none => none
          | some (v, r2) =>
            match symParseArgsLoop f r2 with
            | none => none
            | some (args, r3) => some (SymList.cons v args, r3))
      rw [ihE]
      cases h : symParseExpr f r with
      | none => rfl
      | some p =>
        obtain ⟨e, r2⟩ := p
        show (match parseArgsLoop f r2 with
          | none => none
          | some (args, r3) => some (denote e :: args, r3)) =
          Option.map (fun p => (denoteList p.1, p.2))
            (match symParseArgsLoop f r2 with
            | none => none
            | some (args, r3) => some (SymList.cons e args, r3))
        rw [ihArgs]
        cases h2 : symParseArgsLoop f r2 with
        | none => rfl
        | some q =>
          obtain ⟨args, r3⟩ := q
          rfl

/-- Rewriting a run of `evaluateMathExpression` through the symbolic mirror. -/
theorem evaluate_eq_sym (s : String) :
    evaluateMathExpression s =
      (if (trimL s.data).isEmpty then none
       else if (tokenize (String.mk (trimL s.data))).isEmpty then none
       else
         match symParseExpr (7 * (tokenize (String.mk (trimL s.data))).length + 8)
             (tokenize (String.mk (trimL s.data))) with
         | none => none
         | some (e, rest) =>
           if rest.isEmpty then
             if isNaNJS (denote e) || !isFiniteJS (denote e) then none else some (denote e)
           else none) := by
  unfold evaluateMathExpression
  cases h1 : (trimL s.data).isEmpty with
  | true => simp [h1]
  | false =>
    simp only [h1, Bool.false_eq_true, if_false]
    cases h2 : (tokenize (String.mk (trimL s.data))).isEmpty with
    | true => simp [h2]
    | false =>
      simp only [h2, Bool.false_eq_true, if_false]
      rw [(parse_agrees_sym _).1]
      cases hp : symParseExpr (7 * (tokenize (String.mk (trimL s.data))).length + 8)
          (tokenize (String.mk (trimL s.data))) with
      | none => rfl
      | some p =>
        obtain ⟨e, rest⟩ := p
        rfl

/-- Helper: a successful symbolic parse consuming all tokens determines the
result of `evaluateMathExpression` up to the finiteness guard. -/
theorem evaluate_sym_some (s : String) (e : SymExpr)
    (hne : (trimL s.data).isEmpty = false)
    (hts : (tokenize (String.mk (trimL s.data))).isEmpty = false)
    (hpar : symParseExpr (7 * (tokenize (String.mk (trimL s.data))).length + 8)
        (tokenize (String.mk (trimL s.data))) = some (e, [])) :
    evaluateMathExpression s =
      if isNaNJS (denote e) || !isFiniteJS (denote e) then none else some (denote e) := by
  rw [evaluate_eq_sym, hne, hts, hpar]
  rfl

/-- Helper: finite result. -/
theorem evaluate_sym_fin (s : String) (e : SymExpr) (x : ℝ)
    (hne : (trimL s.data).isEmpty = false)
    (hts : (tokenize (String.mk (trimL s.data))).isEmpty = false)
    (hpar : symParseExpr (7 * (tokenize (String.mk (trimL s.data))).length + 8)
        (tokenize (String.mk (trimL s.data))) = some (e, []))
    (hv : denote e = JSNum.fin x) :
    evaluateMathExpression s = some (JSNum.fin x) := by
  rw [evaluate_sym_some s e hne hts hpar, hv]
  rfl

/-- Helper: a `NaN` result is rejected by the finiteness guard. -/
theorem evaluate_sym_nan (s : String) (e : SymExpr)
    (hne : (trimL s.data).isEmpty = false)
    (hts : (tokenize (String.mk (trimL s.data))).isEmpty = false)
    (hpar : symParseExpr (7 * (tokenize (String.mk (trimL s.data))).length + 8)
        (tokenize (String.mk (trimL s.data))) = some (e, []))
    (hv : denote e = JSNum.nan) :
    evaluateMathExpression s = none := by
  rw [evaluate_sym_some s e hne hts hpar, hv]
  rfl

/-- Helper: a parse failure yields `none`. -/
theorem evaluate_sym_fail (s : String)
    (hne : (trimL s.data).isEmpty = false)
    (hts : (tokenize (String.mk (trimL s.data))).isEmpty = false)
    (hpar : symParseExpr (7 * (tokenize (String.mk (trimL s.data))).length + 8)
        (tokenize (String.mk (trimL s.data))) = none) :
    evaluateMathExpression s = none := by
  rw [evaluate_eq_sym, hne, hts, hpar]
  rfl

/-- Helper: unconsumed trailing tokens yield `none`. -/
theorem evaluate_sym_trailing (s : String) (e : SymExpr) (t : Token) (rest : List Token)
    (hne : (trimL s.data).isEmpty = false)
    (hts : (tokenize (String.mk (trimL s.data))).isEmpty = false)
    (hpar : symParseExpr (7 * (tokenize (String.mk (trimL s.data))).length + 8)
        (tokenize (String.mk (trimL s.data))) = some (e, t :: rest)) :
    evaluateMathExpression s = none := by
  rw [evaluate_eq_sym, hne, hts, hpar]
  rfl

/-! ## Small evaluation lemmas for the arithmetic domain -/

theorem addJS_fin (a b : ℝ) : addJS (.fin a) (.fin b) = .fin (a + b) := rfl

theorem subJS_fin (a b : ℝ) : subJS (.fin a) (.fin b) = .fin (a - b) := rfl

theorem mulJS_fin (a b : ℝ) : mulJS (.fin a) (.fin b) = .fin (a * b) := rfl

theorem negJS_fin (a : ℝ) : negJS (.fin a) = .fin (-a) := rfl

theorem divJS_fin (a b : ℝ) (hb : b ≠ 0) : divJS (.fin a) (.fin b) = .fin (a / b) := by
  show (if b = 0 then (if a = 0 then JSNum.nan else if 0 < a then JSNum.inf else JSNum.ninf)
    else JSNum.fin (a / b)) = JSNum.fin (a / b)
  rw [if_neg hb]

theorem isZeroJS_fin_zero : isZeroJS (.fin 0) = true := by
  show (if (0:ℝ) = 0 then true else false) = true
  rw [if_pos rfl]

theorem isZeroJS_fin (x : ℝ) (hx : x ≠ 0) : isZeroJS (.fin x) = false := by
  show (if x = 0 then true else false) = false
  rw [if_neg hx]

theorem powJS_fin_pos (x y : ℝ) (hy : y ≠ 0) (hx : 0 < x) :
    powJS (.fin x) (.fin y) = .fin (x ^ y) := by
  show (if y = 0 then JSNum.fin 1 else
    if x = 0 then (if 0 < y then JSNum.fin 0 else JSNum.inf)
    else if 0 < x then JSNum.fin (x ^ y)
    else if ((⌊y⌋ : ℝ) = y) then JSNum.fin (x ^ ⌊y⌋)
    else JSNum.nan) = JSNum.fin (x ^ y)
  rw [if_neg hy, if_neg (ne_of_gt hx), if_pos hx]

theorem powJS_fin_neg_base (x y : ℝ) (hy : y ≠ 0) (hx : x < 0) (hint : (⌊y⌋ : ℝ) = y) :
    powJS (.fin x) (.fin y) = .fin (x ^ ⌊y⌋) := by
  show (if y = 0 then JSNum.fin 1 else
    if x = 0 then (if 0 < y then JSNum.fin 0 else JSNum.inf)
    else if 0 < x then JSNum.fin (x ^ y)
    else if ((⌊y⌋ : ℝ) = y) then JSNum.fin (x ^ ⌊y⌋)
    else JSNum.nan) = JSNum.fin (x ^ ⌊y⌋)
  rw [if_neg hy, if_neg (ne_of_lt hx), if_neg (not_lt.2 (le_of_lt hx)), if_pos hint]

theorem rad_fin (x : ℝ) : rad (.fin x) = .fin (x * Real.pi / 180) := by
  show divJS (mulJS (.fin x) (.fin Real.pi)) (.fin 180) = _
  rw [mulJS_fin, divJS_fin _ _ (by norm_num)]

/-! ## C2: totality — every run is a finite number or the single null signal -/

/-- C2: for every input string, `evaluateMathExpression` is total and returns
either `some` finite number or the single `none` signal; all failure causes
(empty input, tokenization failure, parse failure, trailing tokens, non-finite
results) collapse to the same indistinguishable `none`. -/
theorem evaluate_total_finite_or_none (s : String) :
    evaluateMathExpression s = none ∨ ∃ x : ℝ, evaluateMathExpression s = some (JSNum.fin x) := by
  rw [evaluate_eq_sym]
  cases h1 : (trimL s.data).isEmpty with
  | true => exact Or.inl rfl
  | false =>
    cases h2 : (tokenize (String.mk (trimL s.data))).isEmpty with
    | true => exact Or.inl rfl
    | false =>
      cases hp : symParseExpr (7 * (tokenize (String.mk (trimL s.data))).length + 8)
          (tokenize (String.mk (trimL s.data))) with
      | none => exact Or.inl rfl
      | some p =>
        obtain ⟨e, rest⟩ := p
        rcases rest with _ | ⟨t, r⟩
        · show (if isNaNJS (denote e) || !isFiniteJS (denote e) then none else some (denote e)) = none
            ∨ ∃ x : ℝ, (if isNaNJS (denote e) || !isFiniteJS (denote e) then none
                else some (denote e)) = some (JSNum.fin x)
          cases hv : denote e with
          | fin x => exact Or.inr ⟨x, rfl⟩
          | nan => exact Or.inl rfl
          | inf => exact Or.inl rfl
          | ninf => exact Or.inl rfl
        · exact Or.inl rfl

/-! ## C4: division and modulo by zero -/

/-- C4: `/` and `%` by zero produce `NaN` which propagates through parsing
(the full parse of `1/0` and `1%0` succeeds with value `NaN`), and the
non-finite top-level result makes the whole evaluation return `none`. -/
theorem divide_modulo_zero_nan_rejected :
    parseExpr (7 * (tokenize "1/0").length + 8) (tokenize "1/0") = some (JSNum.nan, [])
    ∧ evaluateMathExpression "1/0" = none
    ∧ parseExpr (7 * (tokenize "1%0").length + 8) (tokenize "1%0") = some (JSNum.nan, [])
    ∧ evaluateMathExpression "1%0" = none := by
  have hdiv : denote (SymExpr.divz (SymExpr.lit (NumLit.dec 1 1)) (SymExpr.lit (NumLit.dec 0 1))) =
      JSNum.nan := by
    simp [denote, ofLit, isZeroJS]
  have hmod : denote (SymExpr.modz (SymExpr.lit (NumLit.dec 1 1)) (SymExpr.lit (NumLit.dec 0 1))) =
      JSNum.nan := by
    simp [denote, ofLit, isZeroJS]
  refine ⟨?_, ?_, ?_, ?_⟩
  · rw [(parse_agrees_sym _).1,
      show symParseExpr (7 * (tokenize "1/0").length + 8) (tokenize "1/0") =
        some (SymExpr.divz (SymExpr.lit (NumLit.dec 1 1)) (SymExpr.lit (NumLit.dec 0 1)), [])
        from rfl]
    show some (denote (SymExpr.divz (SymExpr.lit (NumLit.dec 1 1)) (SymExpr.lit (NumLit.dec 0 1))), ([] : List Token)) = _
    rw [hdiv]
  · exact evaluate_sym_nan "1/0"
      (SymExpr.divz (SymExpr.lit (NumLit.dec 1 1)) (SymExpr.lit (NumLit.dec 0 1))) rfl rfl rfl hdiv
  · rw [(parse_agrees_sym _).1,
      show symParseExpr (7 * (tokenize "1%0").length + 8) (tokenize "1%0") =
        some (SymExpr.modz (SymExpr.lit (NumLit.dec 1 1)) (SymExpr.lit (NumLit.dec 0 1)), [])
        from rfl]
    show some (denote (SymExpr.modz (SymExpr.lit (NumLit.dec 1 1)) (SymExpr.lit (NumLit.dec 0 1))), ([] : List Token)) = _
    rw [hmod]
  · exact evaluate_sym_nan "1%0"
      (SymExpr.modz (SymExpr.lit (NumLit.dec 1 1)) (SymExpr.lit (NumLit.dec 0 1))) rfl rfl rfl hmod

/-! ## C5: unary sign recursion and its interaction with power -/

/-- C5: unary `+`/`-` recurse into the power rule, so stacked signs parse
(`--3` is 3, `-+3` is -3), the sign binds tighter than `**` on the left
operand (`-2**2` is 4), and the right operand of `**` may carry a sign
(`2**-1` is 0.5). -/
theorem unary_sign_power_interaction :
    evaluateMathExpression "--3" = some (JSNum.fin 3)
    ∧ evaluateMathExpression "-+3" = some (JSNum.fin (-3))
    ∧ evaluateMathExpression "2**-1" = some (JSNum.fin (1 / 2))
    ∧ evaluateMathExpression "-2**2" = some (JSNum.fin 4) := by
  refine ⟨?_, ?_, ?_, ?_⟩
  · refine evaluate_sym_fin _ (SymExpr.neg (SymExpr.neg (SymExpr.lit (NumLit.dec 3 1)))) 3
      rfl rfl rfl ?_
    simp [denote, ofLit, negJS]
  · refine evaluate_sym_fin _ (SymExpr.neg (SymExpr.lit (NumLit.dec 3 1))) (-3)
      rfl rfl rfl ?_
    simp [denote, ofLit, negJS]
  · refine evaluate_sym_fin _
      (SymExpr.pow (SymExpr.lit (NumLit.dec 2 1)) (SymExpr.neg (SymExpr.lit (NumLit.dec 1 1)))) (1 / 2)
      rfl rfl rfl ?_
    have h1 : denote (SymExpr.pow (SymExpr.lit (NumLit.dec 2 1))
        (SymExpr.neg (SymExpr.lit (NumLit.dec 1 1)))) =
        powJS (.fin (((2:ℕ):ℝ) / ((1:ℕ):ℝ))) (.fin (-(((1:ℕ):ℝ) / ((1:ℕ):ℝ)))) := rfl
    rw [h1, show (((2:ℕ):ℝ) / ((1:ℕ):ℝ)) = 2 by norm_num,
      show (-(((1:ℕ):ℝ) / ((1:ℕ):ℝ))) = -1 by norm_num,
      powJS_fin_pos 2 (-1) (by norm_num) (by norm_num), Real.rpow_neg_one]
    norm_num
  · refine evaluate_sym_fin _
      (SymExpr.pow (SymExpr.neg (SymExpr.lit (NumLit.dec 2 1))) (SymExpr.lit (NumLit.dec 2 1))) 4
      rfl rfl rfl ?_
    have h1 : denote (SymExpr.pow (SymExpr.neg (SymExpr.lit (NumLit.dec 2 1)))
        (SymExpr.lit (NumLit.dec 2 1))) =
        powJS (.fin (-(((2:ℕ):ℝ) / ((1:ℕ):ℝ)))) (.fin (((2:ℕ):ℝ) / ((1:ℕ):ℝ))) := rfl
    have hfl : ⌊(2:ℝ)⌋ = 2 := by
      rw [show ((2:ℝ)) = ((2:ℤ):ℝ) by norm_num, Int.floor_intCast]
    rw [h1, show (-(((2:ℕ):ℝ) / ((1:ℕ):ℝ))) = -2 by norm_num,
      show ((((2:ℕ):ℝ)) / ((1:ℕ):ℝ)) = 2 by norm_num,
      powJS_fin_neg_base (-2) 2 (by norm_num) (by norm_num) (by rw [hfl]; norm_num), hfl]
    norm_num

/-! ## C8: trigonometric functions take degrees -/

/-- C8: `sin`, `cos`, `tan` interpret their single argument as degrees,
multiplying by pi/180 before applying the radian-based function; in
particular `sin(90)` evaluates to 1. -/
theorem trig_degrees :
    evaluateMathExpression "sin(90)" = some (JSNum.fin 1)
    ∧ (∀ x : ℝ, callMathFunc "sin" [JSNum.fin x] = JSNum.fin (Real.sin (x * Real.pi / 180)))
    ∧ (∀ x : ℝ, callMathFunc "cos" [JSNum.fin x] = JSNum.fin (Real.cos (x * Real.pi / 180)))
    ∧ (∀ x : ℝ, callMathFunc "tan" [JSNum.fin x] = JSNum.fin (Real.tan (x * Real.pi / 180))) := by
  refine ⟨?_, ?_, ?_, ?_⟩
  · refine evaluate_sym_fin _ (SymExpr.call "sin" (SymList.cons (SymExpr.lit (NumLit.dec 90 1))
      SymList.nil)) 1 rfl rfl rfl ?_
    show sinJS (rad (JSNum.fin (((90:ℕ):ℝ) / ((1:ℕ):ℝ)))) = JSNum.fin 1
    rw [show (((90:ℕ):ℝ) / ((1:ℕ):ℝ)) = 90 by norm_num, rad_fin]
    show JSNum.fin (Real.sin ((90:ℝ) * Real.pi / 180)) = JSNum.fin 1
    rw [show ((90:ℝ) * Real.pi / 180) = Real.pi / 2 by ring, Real.sin_pi_div_two]
  · intro x
    show sinJS (rad (JSNum.fin x)) = _
    rw [rad_fin]
    rfl
  · intro x
    show cosJS (rad (JSNum.fin x)) = _
    rw [rad_fin]
    rfl
  · intro x
    show tanJS (rad (JSNum.fin x)) = _
    rw [rad_fin]
    rfl

/-! ## C10: numeric literals are consumed as digit-and-dot runs with
`parseFloat` prefix semantics -/

/-- C10: a contiguous run of digits and dots becomes one numeric literal with
prefix parse semantics: `1.2.3` evaluates to 1.2 (the trailing `.3` is
silently absorbed into the literal), while an all-dot run aborts tokenization
(empty token list) so `.` and `..` evaluate to `none`. -/
theorem numeric_literal_prefix_semantics :
    evaluateMathExpression "1.2.3" = some (JSNum.fin (6 / 5))
    ∧ tokenize "1.2.3" = [Token.num (NumLit.dec 12 10)]
    ∧ tokenize "." = []
    ∧ tokenize ".." = []
    ∧ evaluateMathExpression "." = none
    ∧ evaluateMathExpression ".." = none := by
  refine ⟨?_, by decide, by decide, by decide, rfl, rfl⟩
  refine evaluate_sym_fin _ (SymExpr.lit (NumLit.dec 12 10)) (6 / 5) rfl rfl rfl ?_
  show JSNum.fin (((12:ℕ):ℝ) / ((10:ℕ):ℝ)) = JSNum.fin (6 / 5)
  norm_num

/-! ## C6: argument arity of the whitelisted functions -/

/-- C6 counterexample: the claim says a call to a non-variadic whitelisted
function with more than one argument does not yield a result, but the code
ignores the extra arguments: `sqrt(4,9)` evaluates to 2. -/
theorem extra_arguments_counterexample :
    evaluateMathExpression "sqrt(4,9)" = some (JSNum.fin 2) := by
  refine evaluate_sym_fin _ (SymExpr.call "sqrt" (SymList.cons (SymExpr.lit (NumLit.dec 4 1))
    (SymList.cons (SymExpr.lit (NumLit.dec 9 1)) SymList.nil))) 2 rfl rfl rfl ?_
  show sqrtJS (JSNum.fin (((4:ℕ):ℝ) / ((1:ℕ):ℝ))) = JSNum.fin 2
  rw [show (((4:ℕ):ℝ) / ((1:ℕ):ℝ)) = 4 by norm_num]
  show (if (4:ℝ) < 0 then JSNum.nan else JSNum.fin (Real.sqrt 4)) = JSNum.fin 2
  rw [if_neg (by norm_num), show (4:ℝ) = 2 ^ 2 by norm_num,
    Real.sqrt_sq (by norm_num : (0:ℝ) ≤ 2)]

/-- C6 amended: `min` and `max` accept one-or-more arguments
(`min(3,1,2)` is 1, `max(3,1,2)` is 3), while every other whitelisted
function uses only its first argument, silently ignoring any extras
(rather than failing on them). -/
theorem variadic_min_max_amended :
    evaluateMathExpression "min(3,1,2)" = some (JSNum.fin 1)
    ∧ evaluateMathExpression "max(3,1,2)" = some (JSNum.fin 3)
    ∧ (∀ nm : String,
        nm ∈ ["sqrt", "sin", "cos", "tan", "abs", "round", "floor", "ceil", "log", "log10", "exp"] →
        ∀ (a : JSNum) (rest : List JSNum), callMathFunc nm (a :: rest) = callMathFunc nm [a]) := by
  refine ⟨?_, ?_, ?_⟩
  · refine evaluate_sym_fin _ (SymExpr.call "min" (SymList.cons (SymExpr.lit (NumLit.dec 3 1))
      (SymList.cons (SymExpr.lit (NumLit.dec 1 1))
        (SymList.cons (SymExpr.lit (NumLit.dec 2 1)) SymList.nil)))) 1 rfl rfl rfl ?_
    show JSNum.fin (min (min (((3:ℕ):ℝ) / ((1:ℕ):ℝ)) (((1:ℕ):ℝ) / ((1:ℕ):ℝ)))
      (((2:ℕ):ℝ) / ((1:ℕ):ℝ))) = JSNum.fin 1
    norm_num
  · refine evaluate_sym_fin _ (SymExpr.call "max" (SymList.cons (SymExpr.lit (NumLit.dec 3 1))
      (SymList.cons (SymExpr.lit (NumLit.dec 1 1))
        (SymList.cons (SymExpr.lit (NumLit.dec 2 1)) SymList.nil)))) 3 rfl rfl rfl ?_
    show JSNum.fin (max (max (((3:ℕ):ℝ) / ((1:ℕ):ℝ)) (((1:ℕ):ℝ) / ((1:ℕ):ℝ)))
      (((2:ℕ):ℝ) / ((1:ℕ):ℝ))) = JSNum.fin 3
    norm_num
  · intro nm hnm a rest
    fin_cases hnm <;> rfl

/-- Witness for the amended C6 theorem at a concrete input. -/
theorem variadic_min_max_amended_witness :
    "sqrt" ∈ ["sqrt", "sin", "cos", "tan", "abs", "round", "floor", "ceil", "log", "log10", "exp"]
    ∧ callMathFunc "sqrt" [JSNum.fin 9, JSNum.fin 4] = callMathFunc "sqrt" [JSNum.fin 9] := by
  exact ⟨by decide, variadic_min_max_amended.2.2 "sqrt" (by decide) (JSNum.fin 9) [JSNum.fin 4]⟩

/-! ## C3: identifier whitelisting -/

/-- C3 counterexample: the claim asserts that any input containing a letter
run that is not whitelisted returns `none` with empty tokenization, but the
tokenizer strips all whitespace before carving identifiers: `"p i"` contains
the letter runs `p` and `i`, neither of which is whitelisted, yet it is
stripped to `pi` and evaluates to the constant pi. The same holds across the
full JS whitespace class: with a no-break space, `"p\u00A0i"` is likewise
stripped to `pi` and evaluates to pi. -/
theorem stripped_identifier_counterexample :
    evaluateMathExpression "p i" = some (JSNum.fin Real.pi)
    ∧ tokenize "p i" = [Token.num NumLit.piL]
    ∧ evaluateMathExpression "p\u00A0i" = some (JSNum.fin Real.pi)
    ∧ tokenize "p\u00A0i" = [Token.num NumLit.piL] := by
  refine ⟨?_, by decide, ?_, by decide⟩
  · exact evaluate_sym_fin _ (SymExpr.lit NumLit.piL) Real.pi rfl rfl rfl rfl
  · exact evaluate_sym_fin _ (SymExpr.lit NumLit.piL) Real.pi rfl rfl rfl rfl

/-! ## C7: the three parse-failure conditions -/

/-- C7: parenthesized precedence works (`(1+2)*3` is 9), an unclosed
parenthesis fails (`(1+2*3` is `none`), and any tokens left unconsumed after
the one top-level expression parse make evaluation return `none`. -/
theorem parse_failure_null :
    evaluateMathExpression "(1+2)*3" = some (JSNum.fin 9)
    ∧ evaluateMathExpression "(1+2*3" = none
    ∧ ∀ (s : String) (v : JSNum) (t : Token) (rest : List Token),
        parseExpr (7 * (tokenize (String.mk (trimL s.data))).length + 8)
            (tokenize (String.mk (trimL s.data))) = some (v, t :: rest) →
        evaluateMathExpression s = none := by
  refine ⟨?_, ?_, ?_⟩
  · refine evaluate_sym_fin _ (SymExpr.mul (SymExpr.add (SymExpr.lit (NumLit.dec 1 1))
      (SymExpr.lit (NumLit.dec 2 1))) (SymExpr.lit (NumLit.dec 3 1))) 9 rfl rfl rfl ?_
    simp [denote, ofLit, addJS, mulJS]
    norm_num
  · exact evaluate_sym_fail "(1+2*3" rfl rfl rfl
  · intro s v t rest h
    rw [(parse_agrees_sym _).1] at h
    rw [evaluate_eq_sym]
    cases h1 : (trimL s.data).isEmpty with
    | true => rfl
    | false =>
      cases h2 : (tokenize (String.mk (trimL s.data))).isEmpty with
      | true => rfl
      | false =>
        cases hp : symParseExpr (7 * (tokenize (String.mk (trimL s.data))).length + 8)
            (tokenize (String.mk (trimL s.data))) with
        | none => rfl
        | some p =>
          obtain ⟨e, rest2⟩ := p
          rcases rest2 with _ | ⟨t2, r2⟩
          · rw [hp] at h
            simp at h
          · rfl

/-- Witness for C7: a concrete input with a trailing token after a complete
expression parse. -/
theorem parse_failure_null_witness : evaluateMathExpression "(1)2" = none := by
  refine parse_failure_null.2.2 "(1)2" (denote (SymExpr.lit (NumLit.dec 1 1)))
    (Token.num (NumLit.dec 2 1)) [] ?_
  rw [(parse_agrees_sym _).1]
  rfl

/-! ## C3 amended: identifier runs and the closed whitelist -/

theorem isDigit_not_isAlpha (c : Char) (h : c.isDigit = true) : c.isAlpha = false := by
  simp only [Char.isDigit, Char.isAlpha, Char.isUpper, Char.isLower, Bool.and_eq_true,
    decide_eq_true_eq, Bool.or_eq_false_iff, Bool.and_eq_false_iff, decide_eq_false_iff_not,
    not_le, UInt32.le_def, UInt32.lt_def, BitVec.le_def, BitVec.lt_def,
    show ((48:UInt32).toBitVec).toNat = 48 from rfl, show ((57:UInt32).toBitVec).toNat = 57 from rfl,
    show ((65:UInt32).toBitVec).toNat = 65 from rfl, show ((90:UInt32).toBitVec).toNat = 90 from rfl,
    show ((97:UInt32).toBitVec).toNat = 97 from rfl,
    show ((122:UInt32).toBitVec).toNat = 122 from rfl] at *
  omega

theorem isNumChar_not_isAlpha (c : Char) (h : isNumChar c = true) : c.isAlpha = false := by
  rcases Bool.or_eq_true_iff.mp h with hd | hdot
  · exact isDigit_not_isAlpha c hd
  · rw [show c = '.' from by simpa using hdot]
    decide

/-- The identifiers of the stripped input: maximal runs of letters-then-
letters-and-digits, exactly as the tokenizer carves them (and as the spec
defines identifiers). Fuel-based for executability; fuel equal to the list
length always suffices. -/
def identRuns : Nat → List Char → List (List Char)
  | 0, _ => []
  | _, [] => []
  | fuel + 1, c :: cs =>
    if c.isAlpha then
      (c :: cs.takeWhile isIdentChar) :: identRuns fuel (cs.dropWhile isIdentChar)
    else identRuns fuel cs

def identRunsL (cs : List Char) : List (List Char) :=
  identRuns cs.length cs

/-- Case-insensitive membership of an identifier in the closed whitelist
(the constants `pi` and `e` and the thirteen function names). -/
def goodIdent (r : List Char) : Bool :=
  let lower := String.mk (r.map Char.toLower)
  lower == "pi" || lower == "e" || MATH_FUNCTIONS.contains lower

theorem mem_identRuns_cons_nonalpha (c : Char) (cs : List Char) (hc : c.isAlpha = false)
    (n : Nat) (r : List Char) (h : r ∈ identRuns n (c :: cs)) : ∃ m, r ∈ identRuns m cs := by
  cases n with
  | zero => simp [identRuns] at h
  | succ m =>
    rw [identRuns, if_neg (by simp [hc])] at h
    exact ⟨m, h⟩

theorem mem_identRuns_dropWhile (p : Char → Bool) (hp : ∀ c, p c = true → c.isAlpha = false) :
    ∀ (n : Nat) (cs : List Char) (r : List Char), r ∈ identRuns n cs →
      ∃ m, r ∈ identRuns m (cs.dropWhile p) := by
  intro n
  induction n with
  | zero => intro cs r h; simp [identRuns] at h
  | succ m ih =>
    intro cs r h
    cases cs with
    | nil => simp [identRuns] at h
    | cons c cs2 =>
      by_cases hpc : p c = true
      · rw [identRuns, if_neg (by simp [hp c hpc])] at h
        obtain ⟨m2, h2⟩ := ih cs2 r h
        rw [List.dropWhile_cons, if_pos hpc]
        exact ⟨m2, h2⟩
      · rw [List.dropWhile_cons, if_neg hpc]
        exact ⟨m + 1, h⟩

theorem charToken_some_not_isAlpha (c : Char) (t : Token) (h : charToken c = some t) :
    c.isAlpha = false := by
  unfold charToken at h
  by_cases h1 : c = '+'
  · subst h1; decide
  rw [if_neg h1] at h
  by_cases h2 : c = '-'
  · subst h2; decide
  rw [if_neg h2] at h
  by_cases h3 : c = '/'
  · subst h3; decide
  rw [if_neg h3] at h
  by_cases h4 : c = '%'
  · subst h4; decide
  rw [if_neg h4] at h
  by_cases h5 : c = '('
  · subst h5; decide
  rw [if_neg h5] at h
  by_cases h6 : c = ')'
  · subst h6; decide
  rw [if_neg h6] at h
  by_cases h7 : c = ','
  · subst h7; decide
  rw [if_neg h7] at h
  simp at h

theorem identToken_good (c : Char) (tail : List Char) (t : Token)
    (h : identToken c tail = some t) : goodIdent (c :: tail) = true := by
  unfold identToken at h
  by_cases h1 : String.mk ((c :: tail).map Char.toLower) = "pi"
  · unfold goodIdent
    rw [h1]
    decide
  rw [if_neg h1] at h
  by_cases h2 : String.mk ((c :: tail).map Char.toLower) = "e"
  · unfold goodIdent
    rw [h2]
    decide
  rw [if_neg h2] at h
  by_cases h3 : MATH_FUNCTIONS.contains (String.mk ((c :: tail).map Char.toLower)) = true
  · unfold goodIdent
    simp only [h3, Bool.or_true]
  rw [if_neg h3] at h
  simp at h

/-- Every identifier run of an input that tokenizes successfully is,
case-insensitively, `pi`, `e`, or a whitelisted function name. -/
theorem tokenizeGo_good_runs : ∀ (fuel : Nat) (cs : List Char) (ts : List Token),
    tokenizeGo fuel cs = some ts → ∀ (n : Nat) (r : List Char),
    r ∈ identRuns n cs → goodIdent r = true := by
  intro fuel
  induction fuel with
  | zero =>
    intro cs ts htok n r hr
    cases cs with
    | nil => cases n <;> simp [identRuns] at hr
    | cons c cs2 => simp [tokenizeGo] at htok
  | succ f ih =>
    intro cs ts htok n r hr
    cases cs with
    | nil => cases n <;> simp [identRuns] at hr
    | cons c cs2 =>
      simp only [tokenizeGo] at htok
      by_cases hnum : isNumChar c = true
      · rw [if_pos hnum] at htok
        obtain ⟨m1, hr1⟩ := mem_identRuns_cons_nonalpha c cs2 (isNumChar_not_isAlpha c hnum) n r hr
        obtain ⟨m2, hr2⟩ := mem_identRuns_dropWhile isNumChar isNumChar_not_isAlpha m1 cs2 r hr1
        cases hpf : parseFloatN (c :: cs2.takeWhile isNumChar) with
        | none => rw [hpf] at htok; simp at htok
        | some v =>
          rw [hpf] at htok
          cases htg : tokenizeGo f (cs2.dropWhile isNumChar) with
          | none => rw [htg] at htok; simp at htok
          | some ts2 => exact ih _ _ htg m2 r hr2
      · rw [if_neg hnum] at htok
        by_cases hst : c = '*'
        · subst hst
          rw [if_pos rfl] at htok
          obtain ⟨m1, hr1⟩ := mem_identRuns_cons_nonalpha _ cs2 (by decide) n r hr
          split at htok
          · rename_i cs3
            obtain ⟨m2, hr2⟩ := mem_identRuns_cons_nonalpha _ cs3 (by decide) m1 r hr1
            cases htg : tokenizeGo f cs3 with
            | none => rw [htg] at htok; simp at htok
            | some ts2 => exact ih _ _ htg m2 r hr2
          · cases htg : tokenizeGo f cs2 with
            | none => rw [htg] at htok; simp at htok
            | some ts2 => exact ih _ _ htg m1 r hr1
        · rw [if_neg hst] at htok
          cases hct : charToken c with
          | some t =>
            rw [hct] at htok
            obtain ⟨m1, hr1⟩ :=
              mem_identRuns_cons_nonalpha c cs2 (charToken_some_not_isAlpha c t hct) n r hr
            cases htg : tokenizeGo f cs2 with
            | none => rw [htg] at htok; simp at htok
            | some ts2 => exact ih _ _ htg m1 r hr1
          | none =>
            rw [hct] at htok
            by_cases hal : c.isAlpha = true
            · rw [if_pos hal] at htok
              cases hit : identToken c (cs2.takeWhile isIdentChar) with
              | none => rw [hit] at htok; simp at htok
              | some t =>
                rw [hit] at htok
                cases n with
                | zero => simp [identRuns] at hr
                | succ m =>
                  rw [identRuns, if_pos hal] at hr
                  rcases List.mem_cons.mp hr with heq | htail
                  · rw [heq]
                    exact identToken_good c _ t hit
                  · cases htg : tokenizeGo f (cs2.dropWhile isIdentChar) with
                    | none => rw [htg] at htok; simp at htok
                    | some ts2 => exact ih _ _ htg m r htail
            · rw [if_neg hal] at htok
              simp at htok

/-- Failing tokenization of any input containing a non-whitelisted identifier. -/
theorem tokenize_empty_of_bad_run (s2 : String)
    (hbad : ∃ r ∈ identRunsL (stripAndCaret s2.data), goodIdent r = false) :
    tokenize s2 = [] := by
  unfold tokenize
  cases htg : tokenizeGo (stripAndCaret s2.data).length (stripAndCaret s2.data) with
  | none => rfl
  | some ts =>
    obtain ⟨r, hrmem, hrbad⟩ := hbad
    have hgood := tokenizeGo_good_runs _ _ _ htg (stripAndCaret s2.data).length r hrmem
    rw [hgood] at hrbad
    exact absurd hrbad (by simp)

/-- C3 amended: empty and whitespace-only inputs evaluate to `none`, and —
identifiers being carved from the whitespace-STRIPPED input as maximal
letter-then-letter-or-digit runs — any input containing an identifier that is
not, case-insensitively, `pi`, `e`, or one of the thirteen whitelisted
function names makes tokenization return the empty token sequence and
evaluation return `none`. -/
theorem identifier_whitelist_amended :
    evaluateMathExpression "" = none
    ∧ evaluateMathExpression "   " = none
    ∧ evaluateMathExpression "abc" = none
    ∧ ∀ s : String,
        (∃ r ∈ identRunsL (stripAndCaret (trimL s.data)), goodIdent r = false) →
        tokenize (String.mk (trimL s.data)) = [] ∧ evaluateMathExpression s = none := by
  refine ⟨rfl, rfl, rfl, ?_⟩
  intro s hbad
  have hempty : tokenize (String.mk (trimL s.data)) = [] :=
    tokenize_empty_of_bad_run (String.mk (trimL s.data)) hbad
  refine ⟨hempty, ?_⟩
  rw [evaluate_eq_sym]
  cases h0 : (trimL s.data).isEmpty with
  | true => rfl
  | false =>
    rw [hempty]
    rfl

/-- Witness for the amended C3 theorem at a concrete input. -/
theorem identifier_whitelist_amended_witness :
    (∃ r ∈ identRunsL (stripAndCaret (trimL "xyz".data)), goodIdent r = false)
    ∧ tokenize (String.mk (trimL "xyz".data)) = [] ∧ evaluateMathExpression "xyz" = none := by
  have hbad : ∃ r ∈ identRunsL (stripAndCaret (trimL "xyz".data)), goodIdent r = false := by decide
  exact ⟨hbad, identifier_whitelist_amended.2.2.2 "xyz" hbad⟩

/-! ## C9: the `looksLikeMathExpression` heuristic

The three regular expressions of the source are embedded as executable
predicates over the character list of the trimmed input. -/

/-- The character class `[+\-*\/%\^]` of the `hasOp` regex. -/
def OP_CHARS : List Char := ['+', '-', '*', '/', '%', '^']

/-- The alternation names of the `hasOp` word regex and of the
`startsReasonable` regex — note that `log10` is absent (the source regexes
list `log` but not `log10`). -/
def REGEX_NAMES : List String :=
  ["sqrt", "sin", "cos", "tan", "abs", "round", "floor", "ceil", "log", "exp", "min", "max",
    "pi", "e"]

/-- JS regex word characters (`\w`): letters, digits and underscore. -/
def isWordChar (c : Char) : Bool := c.isAlpha || c.isDigit || c = '_'

/-- `/\d/.test(s)`. -/
def hasDigitB (cs : List Char) : Bool := cs.any Char.isDigit

/-- The `[+\-*\/%\^]` alternative of the `hasOp` regex. -/
def hasOpCharB (cs : List Char) : Bool := cs.any (fun c => OP_CHARS.contains c)

/-- The `\.\d|\d\.` alternatives of the `hasOp` regex. -/
def hasDecimalB : List Char → Bool
  | a :: b :: rest => (a = '.' && b.isDigit) || (a.isDigit && b = '.') || hasDecimalB (b :: rest)
  | _ => false

/-- Case-insensitive occurrence of `w` at index `i` of `cs`. -/
def matchAtB (cs w : List Char) (i : Nat) : Bool :=
  ((cs.drop i).take w.length).map Char.toLower == w

/-- JS `\b` word boundaries around the occurrence at `i` of length `len`. -/
def wordBoundaryAtB (cs : List Char) (i len : Nat) : Bool :=
  (i == 0 || !isWordChar (cs.getD (i - 1) ' ')) &&
    (i + len == cs.length || !isWordChar (cs.getD (i + len) ' '))

/-- `/\b(sqrt|sin|cos|tan|abs|round|floor|ceil|log|exp|min|max|pi|e)\b/i.test(s)`. -/
def hasWordB (cs : List Char) : Bool :=
  REGEX_NAMES.any (fun w =>
    (List.range (cs.length + 1)).any (fun i =>
      matchAtB cs w.data i && wordBoundaryAtB cs i w.data.length))

/-- The case-insensitive `^name` alternatives of the `startsReasonable` regex. -/
def startsWithNameB (cs : List Char) : Bool :=
  REGEX_NAMES.any (fun w => (cs.take w.data.length).map Char.toLower == w.data)

/-- `/^[\d.(+\-]|^sqrt|^sin|…|^pi|^e/i.test(s)`. -/
def startsReasonableB (cs : List Char) : Bool :=
  (match cs with
    | c :: _ => c.isDigit || c = '.' || c = '(' || c = '+' || c = '-'
    | [] => false)
  || startsWithNameB cs

/-- `looksLikeMathExpression` from the source. -/
def looksLikeMathExpression (input : String) : Bool :=
  let s := trimL input.data
  if s.length < 2 then false
  else
    let hasDigit := hasDigitB s
    let hasOp := hasOpCharB s || hasDecimalB s || hasWordB s
    let startsReasonable := startsReasonableB s
    hasDigit && hasOp && startsReasonable

/-- The characterization claimed by the specification, read literally: trimmed
length at least 2, at least one digit, at least one operator character, or
digit-adjacent dot, or word-boundary occurrence of a whitelisted function or
constant word (the full whitelist, including `log10`), and a first character
that is a digit, sign, or parenthesis, or a whitelisted function/constant name
prefix. -/
def looksLikeSpecClaim (input : String) : Bool :=
  let s := trimL input.data
  let names := MATH_FUNCTIONS ++ ["pi", "e"]
  decide (2 ≤ s.length)
  && hasDigitB s
  && (s.any (fun c => c = '+' || c = '-' || c = '*' || c = '/' || c = '%')
      || hasDecimalB s
      || names.any (fun w =>
          (List.range (s.length + 1)).any (fun i =>
            matchAtB s w.data i && wordBoundaryAtB s i w.data.length)))
  && ((match s with
        | c :: _ => c.isDigit || c = '+' || c = '-' || c = '(' || c = ')'
        | [] => false)
      || names.any (fun w => (s.take w.data.length).map Char.toLower == w.data))

/-- C9 counterexample: `.5+1` satisfies every condition of the code but not
the claimed characterization (its first character is a dot, which is in the
code start-set `[\d.(+\-]` but not in the claimed start set of digit, sign,
parenthesis, or whitelisted name), so the claimed "returns false for all
other inputs" fails. -/
theorem looks_like_dot_start_counterexample :
    looksLikeMathExpression ".5+1" = true ∧ looksLikeSpecClaim ".5+1" = false := by
  constructor
  · decide
  · decide

/-- The amended characterization: the code-faithful reading of the three
regexes. Compared with the claim: the start set additionally contains the
dot, only a left parenthesis counts, the operator class additionally contains
the caret, the word and name alternations lack `log10` (although a `log10…`
start is still accepted through the `log` prefix), and the name-start
condition is a prefix test rather than a whole-word test. -/
def looksLikeSpecAmended (input : String) : Bool :=
  let s := trimL input.data
  decide (2 ≤ s.length)
  && hasDigitB s
  && (hasOpCharB s || hasDecimalB s || hasWordB s)
  && startsReasonableB s

/-- C9 amended: `looksLikeMathExpression` returns true exactly for the
trimmed inputs of length at least 2 that contain a digit, contain an operator
character, a digit-adjacent dot, or a word-boundary occurrence of one of the
regex names, and start with a digit, dot, sign, left parenthesis, or a
case-insensitive regex-name prefix. -/
theorem looks_like_characterization_amended (s : String) :
    looksLikeMathExpression s = looksLikeSpecAmended s := by
  unfold looksLikeMathExpression looksLikeSpecAmended
  rcases Nat.lt_or_ge (trimL s.data).length 2 with h | h
  · rw [if_pos h]
    have h2 : ¬ (2 ≤ (trimL s.data).length) := by omega
    simp [h2]
  · rw [if_neg (by omega)]
    have h2 : 2 ≤ (trimL s.data).length := h
    simp [h2, Bool.and_assoc]

/-! ## C1: the grammar of section 4.2 and parser completeness

`Derives` is the specification-side grammar relation, written from the
grammar of the spec (expr/term/factor/power/atom with left-folded `+ - * / %`,
right-associative `**`, sign recursion and argument lists), with the exact
arithmetic of the value domain as semantic actions. The theorem below shows
the evaluator returns precisely the derived value whenever a full derivation
with a finite value exists. -/

inductive NT
  | expr
  | exprTail (acc : JSNum)
  | term
  | termTail (acc : JSNum)
  | fact
  | pow
  | atom
  | args

inductive Derives : NT → List Token → JSNum ⊕ List JSNum → List Token → Prop where
  | expr {ts : List Token} {v : JSNum} {r : List Token} {w : JSNum} {rest : List Token} :
      Derives .term ts (.inl v) r → Derives (.exprTail v) r (.inl w) rest →
      Derives .expr ts (.inl w) rest
  | exprTailNil {v : JSNum} {ts : List Token} : Derives (.exprTail v) ts (.inl v) ts
  | exprTailAdd {v : JSNum} {r : List Token} {u : JSNum} {r2 : List Token} {w : JSNum}
      {rest : List Token} :
      Derives .term r (.inl u) r2 → Derives (.exprTail (addJS v u)) r2 (.inl w) rest →
      Derives (.exprTail v) (Token.op Op.add :: r) (.inl w) rest
  | exprTailSub {v : JSNum} {r : List Token} {u : JSNum} {r2 : List Token} {w : JSNum}
      {rest : List Token} :
      Derives .term r (.inl u) r2 → Derives (.exprTail (subJS v u)) r2 (.inl w) rest →
      Derives (.exprTail v) (Token.op Op.sub :: r) (.inl w) rest
  | term {ts : List Token} {v : JSNum} {r : List Token} {w : JSNum} {rest : List Token} :
      Derives .fact ts (.inl v) r → Derives (.termTail v) r (.inl w) rest →
      Derives .term ts (.inl w) rest
  | termTailNil {v : JSNum} {ts : List Token} : Derives (.termTail v) ts (.inl v) ts
  | termTailMul {v : JSNum} {r : List Token} {u : JSNum} {r2 : List Token} {w : JSNum}
      {rest : List Token} :
      Derives .fact r (.inl u) r2 → Derives (.termTail (mulJS v u)) r2 (.inl w) rest →
      Derives (.termTail v) (Token.op Op.mul :: r) (.inl w) rest
  | termTailDiv {v : JSNum} {r : List Token} {u : JSNum} {r2 : List Token} {w : JSNum}
      {rest : List Token} :
      Derives .fact r (.inl u) r2 →
      Derives (.termTail (if isZeroJS u then .nan else divJS v u)) r2 (.inl w) rest →
      Derives (.termTail v) (Token.op Op.div :: r) (.inl w) rest
  | termTailMod {v : JSNum} {r : List Token} {u : JSNum} {r2 : List Token} {w : JSNum}
      {rest : List Token} :
      Derives .fact r (.inl u) r2 →
      Derives (.termTail (if isZeroJS u then .nan else modJS v u)) r2 (.inl w) rest →
      Derives (.termTail v) (Token.op Op.mod :: r) (.inl w) rest
  | factBase {ts : List Token} {v : JSNum} {rest : List Token} :
      Derives .pow ts (.inl v) rest → Derives .fact ts (.inl v) rest
  | factPow {ts : List Token} {b : JSNum} {r : List Token} {e : JSNum} {rest : List Token} :
      Derives .pow ts (.inl b) (Token.op Op.pow :: r) → Derives .fact r (.inl e) rest →
      Derives .fact ts (.inl (powJS b e)) rest
  | powPos {r : List Token} {v : JSNum} {rest : List Token} :
      Derives .pow r (.inl v) rest → Derives .pow (Token.op Op.add :: r) (.inl v) rest
  | powNeg {r : List Token} {v : JSNum} {rest : List Token} :
      Derives .pow r (.inl v) rest → Derives .pow (Token.op Op.sub :: r) (.inl (negJS v)) rest
  | powAtom {ts : List Token} {v : JSNum} {rest : List Token} :
      Derives .atom ts (.inl v) rest → Derives .pow ts (.inl v) rest
  | atomNum {l : NumLit} {r : List Token} :
      Derives .atom (Token.num l :: r) (.inl (ofLit l)) r
  | atomParen {r : List Token} {v : JSNum} {rest : List Token} :
      Derives .expr r (.inl v) (Token.rparen :: rest) →
      Derives .atom (Token.lparen :: r) (.inl v) rest
  | atomFn0 {nm : String} {rest : List Token} :
      Derives .atom (Token.func nm :: Token.lparen :: Token.rparen :: rest)
        (.inl (callMathFunc nm [])) rest
  | atomFn {nm : String} {r : List Token} {v : JSNum} {r2 : List Token} {as : List JSNum}
      {rest : List Token} :
      Derives .expr r (.inl v) r2 → Derives .args r2 (.inr as) (Token.rparen :: rest) →
      Derives .atom (Token.func nm :: Token.lparen :: r) (.inl (callMathFunc nm (v :: as))) rest
  | argsNil {ts : List Token} : Derives .args ts (.inr []) ts
  | argsCons {r : List Token} {v : JSNum} {r2 : List Token} {as : List JSNum}
      {rest : List Token} :
      Derives .expr r (.inl v) r2 → Derives .args r2 (.inr as) rest →
      Derives .args (Token.comma :: r) (.inr (v :: as)) rest

/-- The rank of a nonterminal in the fuel bound. -/
def rank : NT → Nat
  | .expr => 8
  | .exprTail _ => 7
  | .term => 6
  | .termTail _ => 5
  | .fact => 4
  | .pow => 3
  | .atom => 2
  | .args => 2

/-- The rest list does not begin with any operator token. -/
def opFreeHead : List Token → Prop
  | Token.op _ :: _ => False
  | _ => True

/-- The rest list does not begin with `*`, `/`, `%` or `**`. -/
def termSafeHead : List Token → Prop
  | Token.op Op.mul :: _ => False
  | Token.op Op.div :: _ => False
  | Token.op Op.mod :: _ => False
  | Token.op Op.pow :: _ => False
  | _ => True

/-- The rest list does not begin with `**`. -/
def factSafeHead : List Token → Prop
  | Token.op Op.pow :: _ => False
  | _ => True

/-- The context condition under which a derivation is necessarily greedy:
what may follow the derived phrase. -/
def cond : NT → List Token → Prop
  | .expr, rest => opFreeHead rest
  | .exprTail _, rest => opFreeHead rest
  | .term, rest => termSafeHead rest
  | .termTail _, rest => termSafeHead rest
  | .fact, rest => factSafeHead rest
  | .pow, _ => True
  | .atom, _ => True
  | .args, rest => ∃ r2, rest = Token.rparen :: r2

theorem opFreeHead_termSafe (rest : List Token) (h : opFreeHead rest) : termSafeHead rest := by
  rcases rest with _ | ⟨t, r⟩
  · trivial
  rcases t with l | o | _ | _ | nm | _ <;> trivial

theorem termSafeHead_factSafe (rest : List Token) (h : termSafeHead rest) : factSafeHead rest := by
  rcases rest with _ | ⟨t, r⟩
  · trivial
  rcases t with l | o | _ | _ | nm | _ <;> try trivial
  rcases o with _ | _ | _ | _ | _ | _ <;> trivial

theorem derives_length {nt : NT} {ts : List Token} {v : JSNum ⊕ List JSNum} {rest : List Token}
    (h : Derives nt ts v rest) : rest.length ≤ ts.length := by
  induction h <;> (try simp only [List.length_cons] at *) <;> omega

theorem derives_atom_starts {ts : List Token} {v : JSNum ⊕ List JSNum} {rest : List Token}
    (h : Derives .atom ts v rest) :
    ∃ tl, (∃ l, ts = Token.num l :: tl) ∨ ts = Token.lparen :: tl
      ∨ ∃ nm, ts = Token.func nm :: tl := by
  cases h with
  | atomNum => exact ⟨_, Or.inl ⟨_, rfl⟩⟩
  | atomParen h1 => exact ⟨_, Or.inr (Or.inl rfl)⟩
  | atomFn0 => exact ⟨_, Or.inr (Or.inr ⟨_, rfl⟩)⟩
  | atomFn h1 h2 => exact ⟨_, Or.inr (Or.inr ⟨_, rfl⟩)⟩

theorem derives_starts {nt : NT} {ts : List Token} {v : JSNum ⊕ List JSNum} {rest : List Token}
    (h : Derives nt ts v rest) :
    (nt = NT.expr ∨ nt = NT.term ∨ nt = NT.fact ∨ nt = NT.pow) →
    ∃ t tl, ts = t :: tl ∧ ((∃ l, t = Token.num l) ∨ t = Token.lparen
      ∨ (∃ nm, t = Token.func nm) ∨ t = Token.op Op.add ∨ t = Token.op Op.sub) := by
  induction h with
  | expr hterm htail iht ihtl => exact fun _ => iht (Or.inr (Or.inl rfl))
  | exprTailNil => exact fun hnt => absurd hnt (by simp)
  | exprTailAdd h1 h2 ih1 ih2 => exact fun hnt => absurd hnt (by simp)
  | exprTailSub h1 h2 ih1 ih2 => exact fun hnt => absurd hnt (by simp)
  | term hfact htail ihf ihtl => exact fun _ => ihf (Or.inr (Or.inr (Or.inl rfl)))
  | termTailNil => exact fun hnt => absurd hnt (by simp)
  | termTailMul h1 h2 ih1 ih2 => exact fun hnt => absurd hnt (by simp)
  | termTailDiv h1 h2 ih1 ih2 => exact fun hnt => absurd hnt (by simp)
  | termTailMod h1 h2 ih1 ih2 => exact fun hnt => absurd hnt (by simp)
  | factBase hpow ih => exact fun _ => ih (Or.inr (Or.inr (Or.inr rfl)))
  | factPow hpow hfact ihp ihf => exact fun _ => ihp (Or.inr (Or.inr (Or.inr rfl)))
  | powPos hpow ih =>
    exact fun _ => ⟨_, _, rfl, Or.inr (Or.inr (Or.inr (Or.inl rfl)))⟩
  | powNeg hpow ih =>
    exact fun _ => ⟨_, _, rfl, Or.inr (Or.inr (Or.inr (Or.inr rfl)))⟩
  | powAtom hatom ih =>
    intro _
    obtain ⟨tl, h3⟩ := derives_atom_starts hatom
    rcases h3 with ⟨l, rfl⟩ | rfl | ⟨nm, rfl⟩
    · exact ⟨_, _, rfl, Or.inl ⟨l, rfl⟩⟩
    · exact ⟨_, _, rfl, Or.inr (Or.inl rfl)⟩
    · exact ⟨_, _, rfl, Or.inr (Or.inr (Or.inl ⟨nm, rfl⟩))⟩
  | atomNum => exact fun hnt => absurd hnt (by simp)
  | atomParen h1 ih1 => exact fun hnt => absurd hnt (by simp)
  | atomFn0 => exact fun hnt => absurd hnt (by simp)
  | atomFn h1 h2 ih1 ih2 => exact fun hnt => absurd hnt (by simp)
  | argsNil => exact fun hnt => absurd hnt (by simp)
  | argsCons h1 h2 ih1 ih2 => exact fun hnt => absurd hnt (by simp)

/-- Unfolding `parseCall` when the argument list is not immediately closed. -/
theorem parseCall_cont (g : Nat) (nm : String) (ts : List Token)
    (hnr : ts.head? ≠ some Token.rparen) :
    parseCall (g + 1) nm ts =
      (match parseExpr g ts with
        | none => none
        | some (v, r2) =>
          match parseArgsLoop g r2 with
          | none => none
          | some (args, r3) =>
            match r3 with
            | Token.rparen :: r4 => some (callMathFunc nm (v :: args), r4)
            | _ => none) := by
  rcases ts with _ | ⟨t, tl⟩
  · rfl
  rcases t with l | o | _ | _ | nm2 | _ <;> first
    | rfl
    | exact absurd rfl hnr

/-- Completeness of the recursive-descent parser for the grammar: any
derivation whose rest satisfies the greediness context condition is computed
by the corresponding parsing function, given enough fuel. -/
theorem derives_parse {nt : NT} {ts : List Token} {v : JSNum ⊕ List JSNum} {rest : List Token}
    (h : Derives nt ts v rest) :
    ∀ f : Nat, cond nt rest → 7 * ts.length + rank nt ≤ f →
      (match nt, v with
        | .expr, .inl v2 => parseExpr f ts = some (v2, rest)
        | .exprTail a, .inl v2 => parseExprLoop f a ts = some (v2, rest)
        | .term, .inl v2 => parseTerm f ts = some (v2, rest)
        | .termTail a, .inl v2 => parseTermLoop f a ts = some (v2, rest)
        | .fact, .inl v2 => parseFactor f ts = some (v2, rest)
        | .pow, .inl v2 => parsePower f ts = some (v2, rest)
        | .atom, .inl v2 => parseAtom f ts = some (v2, rest)
        | .args, .inr as => parseArgsLoop f ts = some (as, rest)
        | _, _ => True) := by
  induction h with
  | expr hterm htail iht ihtl =>
    rename_i ts u r w rest
    intro f hc hf
    have hf2 : 7 * ts.length + 8 ≤ f := hf
    obtain ⟨g, rfl⟩ : ∃ g, f = g + 1 := ⟨f - 1, by omega⟩
    have hlen : r.length ≤ ts.length := derives_length hterm
    have hcondt : cond .term r := by
      cases htail with
      | exprTailNil => exact opFreeHead_termSafe _ hc
      | exprTailAdd h1 h2 => trivial
      | exprTailSub h1 h2 => trivial
    have ht := iht g hcondt (show 7 * ts.length + 6 ≤ g by omega)
    have htl := ihtl g hc (show 7 * r.length + 7 ≤ g by omega)
    show parseExpr (g + 1) ts = some (w, rest)
    simp only [parseExpr]
    rw [show parseTerm g ts = some (u, r) from ht]
    exact htl
  | exprTailNil =>
    rename_i a ts2
    intro f hc hf
    have hf2 : 7 * ts2.length + 7 ≤ f := hf
    obtain ⟨g, rfl⟩ : ∃ g, f = g + 1 := ⟨f - 1, by omega⟩
    show parseExprLoop (g + 1) a ts2 = some (a, ts2)
    rcases ts2 with _ | ⟨t, r⟩
    · rfl
    rcases t with l | o | _ | _ | nm | _ <;> try rfl
    rcases o with _ | _ | _ | _ | _ | _ <;> try rfl
    · exact ((hc : False).elim)
    · exact ((hc : False).elim)
  | exprTailAdd hterm htail iht ihtl =>
    rename_i a r u r2 w rest
    intro f hc hf
    have hf2 : 7 * (r.length + 1) + 7 ≤ f := hf
    obtain ⟨g, rfl⟩ : ∃ g, f = g + 1 := ⟨f - 1, by omega⟩
    have hlen : r2.length ≤ r.length := derives_length hterm
    have hcondt : cond .term r2 := by
      cases htail with
      | exprTailNil => exact opFreeHead_termSafe _ hc
      | exprTailAdd h1 h2 => trivial
      | exprTailSub h1 h2 => trivial
    have ht := iht g hcondt (show 7 * r.length + 6 ≤ g by omega)
    have htl := ihtl g hc (show 7 * r2.length + 7 ≤ g by omega)
    show parseExprLoop (g + 1) a (Token.op Op.add :: r) = some (w, rest)
    simp only [parseExprLoop]
    rw [show parseTerm g r = some (u, r2) from ht]
    exact htl
  | exprTailSub hterm htail iht ihtl =>
    rename_i a r u r2 w rest
    intro f hc hf
    have hf2 : 7 * (r.length + 1) + 7 ≤ f := hf
    obtain ⟨g, rfl⟩ : ∃ g, f = g + 1 := ⟨f - 1, by omega⟩
    have hlen : r2.length ≤ r.length := derives_length hterm
    have hcondt : cond .term r2 := by
      cases htail with
      | exprTailNil => exact opFreeHead_termSafe _ hc
      | exprTailAdd h1 h2 => trivial
      | exprTailSub h1 h2 => trivial
    have ht := iht g hcondt (show 7 * r.length + 6 ≤ g by omega)
    have htl := ihtl g hc (show 7 * r2.length + 7 ≤ g by omega)
    show parseExprLoop (g + 1) a (Token.op Op.sub :: r) = some (w, rest)
    simp only [parseExprLoop]
    rw [show parseTerm g r = some (u, r2) from ht]
    exact htl
  | term hfact htail ihf ihtl =>
    rename_i ts u r w rest
    intro f hc hf
    have hf2 : 7 * ts.length + 6 ≤ f := hf
    obtain ⟨g, rfl⟩ : ∃ g, f = g + 1 := ⟨f - 1, by omega⟩
    have hlen : r.length ≤ ts.length := derives_length hfact
    have hcondf : cond .fact r := by
      cases htail with
      | termTailNil => exact termSafeHead_factSafe _ hc
      | termTailMul h1 h2 => trivial
      | termTailDiv h1 h2 => trivial
      | termTailMod h1 h2 => trivial
    have ht := ihf g hcondf (show 7 * ts.length + 4 ≤ g by omega)
    have htl := ihtl g hc (show 7 * r.length + 5 ≤ g by omega)
    show parseTerm (g + 1) ts = some (w, rest)
    simp only [parseTerm]
    rw [show parseFactor g ts = some (u, r) from ht]
    exact htl
  | termTailNil =>
    rename_i a ts2
    intro f hc hf
    have hf2 : 7 * ts2.length + 5 ≤ f := hf
    obtain ⟨g, rfl⟩ : ∃ g, f = g + 1 := ⟨f - 1, by omega⟩
    show parseTermLoop (g + 1) a ts2 = some (a, ts2)
    rcases ts2 with _ | ⟨t, r⟩
    · rfl
    rcases t with l | o | _ | _ | nm | _ <;> try rfl
    rcases o with _ | _ | _ | _ | _ | _ <;> try rfl
    · exact ((hc : False).elim)
    · exact ((hc : False).elim)
    · exact ((hc : False).elim)
  | termTailMul hfact htail ihf ihtl =>
    rename_i a r u r2 w rest
    intro f hc hf
    have hf2 : 7 * (r.length + 1) + 5 ≤ f := hf
    obtain ⟨g, rfl⟩ : ∃ g, f = g + 1 := ⟨f - 1, by omega⟩
    have hlen : r2.length ≤ r.length := derives_length hfact
    have hcondf : cond .fact r2 := by
      cases htail with
      | termTailNil => exact termSafeHead_factSafe _ hc
      | termTailMul h1 h2 => trivial
      | termTailDiv h1 h2 => trivial
      | termTailMod h1 h2 => trivial
    have ht := ihf g hcondf (show 7 * r.length + 4 ≤ g by omega)
    have htl := ihtl g hc (show 7 * r2.length + 5 ≤ g by omega)
    show parseTermLoop (g + 1) a (Token.op Op.mul :: r) = some (w, rest)
    simp only [parseTermLoop]
    rw [show parseFactor g r = some (u, r2) from ht]
    exact htl
  | termTailDiv hfact htail ihf ihtl =>
    rename_i a r u r2 w rest
    intro f hc hf
    have hf2 : 7 * (r.length + 1) + 5 ≤ f := hf
    obtain ⟨g, rfl⟩ : ∃ g, f = g + 1 := ⟨f - 1, by omega⟩
    have hlen : r2.length ≤ r.length := derives_length hfact
    have hcondf : cond .fact r2 := by
      cases htail with
      | termTailNil => exact termSafeHead_factSafe _ hc
      | termTailMul h1 h2 => trivial
      | termTailDiv h1 h2 => trivial
      | termTailMod h1 h2 => trivial
    have ht := ihf g hcondf (show 7 * r.length + 4 ≤ g by omega)
    have htl := ihtl g hc (show 7 * r2.length + 5 ≤ g by omega)
    show parseTermLoop (g + 1) a (Token.op Op.div :: r) = some (w, rest)
    simp only [parseTermLoop]
    rw [show parseFactor g r = some (u, r2) from ht]
    exact htl
  | termTailMod hfact htail ihf ihtl =>
    rename_i a r u r2 w rest
    intro f hc hf
    have hf2 : 7 * (r.length + 1) + 5 ≤ f := hf
    obtain ⟨g, rfl⟩ : ∃ g, f = g + 1 := ⟨f - 1, by omega⟩
    have hlen : r2.length ≤ r.length := derives_length hfact
    have hcondf : cond .fact r2 := by
      cases htail with
      | termTailNil => exact termSafeHead_factSafe _ hc
      | termTailMul h1 h2 => trivial
      | termTailDiv h1 h2 => trivial
      | termTailMod h1 h2 => trivial
    have ht := ihf g hcondf (show 7 * r.length + 4 ≤ g by omega)
    have htl := ihtl g hc (show 7 * r2.length + 5 ≤ g by omega)
    show parseTermLoop (g + 1) a (Token.op Op.mod :: r) = some (w, rest)
    simp only [parseTermLoop]
    rw [show parseFactor g r = some (u, r2) from ht]
    exact htl
  | factBase hpow ihpow =>
    rename_i ts u rest
    intro f hc hf
    have hf2 : 7 * ts.length + 4 ≤ f := hf
    obtain ⟨g, rfl⟩ : ∃ g, f = g + 1 := ⟨f - 1, by omega⟩
    have hp := ihpow g trivial (show 7 * ts.length + 3 ≤ g by omega)
    show parseFactor (g + 1) ts = some (u, rest)
    simp only [parseFactor]
    rw [show parsePower g ts = some (u, rest) from hp]
    rcases rest with _ | ⟨t, r2⟩
    · rfl
    rcases t with l | o | _ | _ | nm | _ <;> try rfl
    rcases o with _ | _ | _ | _ | _ | _ <;> try rfl
    exact ((hc : False).elim)
  | factPow hpow hfact ihp ihf =>
    rename_i ts b r e rest
    intro f hc hf
    have hf2 : 7 * ts.length + 4 ≤ f := hf
    obtain ⟨g, rfl⟩ : ∃ g, f = g + 1 := ⟨f - 1, by omega⟩
    have hlen : (Token.op Op.pow :: r).length ≤ ts.length := derives_length hpow
    have hlen2 : r.length + 1 ≤ ts.length := by simpa using hlen
    have hp := ihp g trivial (show 7 * ts.length + 3 ≤ g by omega)
    have hfc := ihf g hc (show 7 * r.length + 4 ≤ g by omega)
    show parseFactor (g + 1) ts = some (powJS b e, rest)
    simp only [parseFactor]
    rw [show parsePower g ts = some (b, Token.op Op.pow :: r) from hp]
    show (match parseFactor g r with
      | none => none
      | some (e2, r3) => some (powJS b e2, r3)) = some (powJS b e, rest)
    rw [show parseFactor g r = some (e, rest) from hfc]
  | powPos hpow ihpow =>
    rename_i r u rest
    intro f hc hf
    have hf2 : 7 * (r.length + 1) + 3 ≤ f := hf
    obtain ⟨g, rfl⟩ : ∃ g, f = g + 1 := ⟨f - 1, by omega⟩
    have hp := ihpow g trivial (show 7 * r.length + 3 ≤ g by omega)
    show parsePower (g + 1) (Token.op Op.add :: r) = some (u, rest)
    exact hp
  | powNeg hpow ihpow =>
    rename_i r u rest
    intro f hc hf
    have hf2 : 7 * (r.length + 1) + 3 ≤ f := hf
    obtain ⟨g, rfl⟩ : ∃ g, f = g + 1 := ⟨f - 1, by omega⟩
    have hp := ihpow g trivial (show 7 * r.length + 3 ≤ g by omega)
    show parsePower (g + 1) (Token.op Op.sub :: r) = some (negJS u, rest)
    simp only [parsePower]
    rw [show parsePower g r = some (u, rest) from hp]
  | powAtom hatom ihatom =>
    rename_i ts u rest
    intro f hc hf
    have hf2 : 7 * ts.length + 3 ≤ f := hf
    obtain ⟨g, rfl⟩ : ∃ g, f = g + 1 := ⟨f - 1, by omega⟩
    have ha := ihatom g trivial (show 7 * ts.length + 2 ≤ g by omega)
    obtain ⟨tl, h3⟩ := derives_atom_starts hatom
    show parsePower (g + 1) ts = some (u, rest)
    rcases h3 with ⟨l, rfl⟩ | rfl | ⟨nm, rfl⟩
    · exact ha
    · exact ha
    · exact ha
  | atomNum =>
    rename_i l r
    intro f hc hf
    have hf2 : 7 * (r.length + 1) + 2 ≤ f := hf
    obtain ⟨g, rfl⟩ : ∃ g, f = g + 1 := ⟨f - 1, by omega⟩
    show parseAtom (g + 1) (Token.num l :: r) = some (ofLit l, r)
    rfl
  | atomParen hexpr ihexpr =>
    rename_i r u rest
    intro f hc hf
    have hf2 : 7 * (r.length + 1) + 2 ≤ f := hf
    obtain ⟨g, rfl⟩ : ∃ g, f = g + 1 := ⟨f - 1, by omega⟩
    have he := ihexpr g trivial (show 7 * r.length + 8 ≤ g by omega)
    show parseAtom (g + 1) (Token.lparen :: r) = some (u, rest)
    simp only [parseAtom]
    rw [show parseExpr g r = some (u, Token.rparen :: rest) from he]
  | atomFn0 =>
    rename_i nm rest
    intro f hc hf
    have hf2 : 7 * (rest.length + 3) + 2 ≤ f := hf
    obtain ⟨g, rfl⟩ : ∃ g, f = g + 1 := ⟨f - 1, by omega⟩
    obtain ⟨g2, rfl⟩ : ∃ g2, g = g2 + 1 := ⟨g - 1, by omega⟩
    show parseAtom (g2 + 1 + 1)
      (Token.func nm :: Token.lparen :: Token.rparen :: rest) = some (callMathFunc nm [], rest)
    rfl
  | atomFn hexpr hargs ihexpr ihargs =>
    rename_i nm r u r2 as rest
    intro f hc hf
    have hf2 : 7 * (r.length + 2) + 2 ≤ f := hf
    obtain ⟨g, rfl⟩ : ∃ g, f = g + 1 := ⟨f - 1, by omega⟩
    obtain ⟨g2, rfl⟩ : ∃ g2, g = g2 + 1 := ⟨g - 1, by omega⟩
    have hlen : r2.length ≤ r.length := derives_length hexpr
    have hcond2 : cond .expr r2 := by
      cases hargs with
      | argsNil => trivial
      | argsCons h1 h2 => trivial
    have he := ihexpr g2 hcond2 (show 7 * r.length + 8 ≤ g2 by omega)
    have ha := ihargs g2 ⟨rest, rfl⟩ (show 7 * r2.length + 2 ≤ g2 by omega)
    obtain ⟨t, tl, rfl, hts⟩ := derives_starts hexpr (Or.inl rfl)
    have hnr : (t :: tl).head? ≠ some Token.rparen := by
      rcases hts with ⟨l, rfl⟩ | rfl | ⟨nm2, rfl⟩ | rfl | rfl <;> simp
    show parseAtom (g2 + 1 + 1) (Token.func nm :: Token.lparen :: t :: tl) =
      some (callMathFunc nm (u :: as), rest)
    have hstep : parseAtom (g2 + 1 + 1) (Token.func nm :: Token.lparen :: t :: tl) =
        parseCall (g2 + 1) nm (t :: tl) := rfl
    rw [hstep, parseCall_cont g2 nm (t :: tl) hnr,
      show parseExpr g2 (t :: tl) = some (u, r2) from he]
    show (match parseArgsLoop g2 r2 with
      | none => none
      | some (args, r3) =>
        match r3 with
        | Token.rparen :: r4 => some (callMathFunc nm (u :: args), r4)
        | _ => none) = some (callMathFunc nm (u :: as), rest)
    rw [show parseArgsLoop g2 r2 = some (as, Token.rparen :: rest) from ha]
  | argsNil =>
    rename_i ts2
    intro f hc hf
    have hf2 : 7 * ts2.length + 2 ≤ f := hf
    obtain ⟨g, rfl⟩ : ∃ g, f = g + 1 := ⟨f - 1, by omega⟩
    obtain ⟨r3, rfl⟩ := hc
    show parseArgsLoop (g + 1) (Token.rparen :: r3) = some ([], Token.rparen :: r3)
    rfl
  | argsCons hexpr hargs ihexpr ihargs =>
    rename_i r u r2 as rest
    intro f hc hf
    have hf2 : 7 * (r.length + 1) + 2 ≤ f := hf
    obtain ⟨g, rfl⟩ : ∃ g, f = g + 1 := ⟨f - 1, by omega⟩
    have hlen : r2.length ≤ r.length := derives_length hexpr
    have hcond2 : cond .expr r2 := by
      cases hargs with
      | argsNil => obtain ⟨r3, rfl⟩ := hc; trivial
      | argsCons h1 h2 => trivial
    have he := ihexpr g hcond2 (show 7 * r.length + 8 ≤ g by omega)
    have ha := ihargs g hc (show 7 * r2.length + 2 ≤ g by omega)
    show parseArgsLoop (g + 1) (Token.comma :: r) = some (u :: as, rest)
    simp only [parseArgsLoop]
    rw [show parseExpr g r = some (u, r2) from he]
    show (match parseArgsLoop g r2 with
      | none => none
      | some (args, r3) => some (u :: args, r3)) = some (u :: as, rest)
    rw [show parseArgsLoop g r2 = some (as, rest) from ha]

/-- C1: for every token sequence derivable as a complete `expr` of the
specification grammar with exact-arithmetic value `v`, when `v` is finite the
evaluator returns exactly `v`. -/
theorem evaluate_grammar_complete (s : String) (v : JSNum)
    (hder : Derives NT.expr (tokenize (String.mk (trimL s.data))) (Sum.inl v) [])
    (hfin : isFiniteJS v = true) :
    evaluateMathExpression s = some v := by
  have hne : tokenize (String.mk (trimL s.data)) ≠ [] := by
    intro h0
    rw [h0] at hder
    obtain ⟨t, tl, heq, h4⟩ := derives_starts hder (Or.inl rfl)
    exact List.noConfusion heq
  have hp2 : parseExpr (7 * (tokenize (String.mk (trimL s.data))).length + 8)
      (tokenize (String.mk (trimL s.data))) = some (v, []) :=
    derives_parse hder (7 * (tokenize (String.mk (trimL s.data))).length + 8) trivial
      (le_refl _)
  have hev : evaluateMathExpression s =
      (if (trimL s.data).isEmpty then none
       else if (tokenize (String.mk (trimL s.data))).isEmpty then none
       else
         match parseExpr (7 * (tokenize (String.mk (trimL s.data))).length + 8)
             (tokenize (String.mk (trimL s.data))) with
         | none => none
         | some (result, rest) =>
           if rest.isEmpty then
             if isNaNJS result || !isFiniteJS result then none else some result
           else none) := rfl
  rw [hev]
  cases h1 : (trimL s.data).isEmpty with
  | true =>
    exfalso
    apply hne
    have h5 : trimL s.data = [] := by simpa using h1
    rw [h5]
    rfl
  | false =>
    cases h2 : (tokenize (String.mk (trimL s.data))).isEmpty with
    | true => exact absurd (by simpa using h2) hne
    | false =>
      rw [hp2]
      cases v with
      | fin x => rfl
      | nan => simp [isFiniteJS] at hfin
      | inf => simp [isFiniteJS] at hfin
      | ninf => simp [isFiniteJS] at hfin

/-- Witness for C1 at the concrete input `1+2`, with the explicit grammar
derivation. -/
theorem evaluate_grammar_complete_witness : evaluateMathExpression "1+2" = some (JSNum.fin 3) := by
  have hts : tokenize (String.mk (trimL "1+2".data)) =
      [Token.num (NumLit.dec 1 1), Token.op Op.add, Token.num (NumLit.dec 2 1)] := by decide
  have hval : addJS (ofLit (NumLit.dec 1 1)) (ofLit (NumLit.dec 2 1)) = JSNum.fin 3 := by
    simp [ofLit, addJS]
    norm_num
  have hder : Derives NT.expr (tokenize (String.mk (trimL "1+2".data)))
      (Sum.inl (addJS (ofLit (NumLit.dec 1 1)) (ofLit (NumLit.dec 2 1)))) [] := by
    rw [hts]
    exact Derives.expr
      (Derives.term (Derives.factBase (Derives.powAtom Derives.atomNum)) Derives.termTailNil)
      (Derives.exprTailAdd
        (Derives.term (Derives.factBase (Derives.powAtom Derives.atomNum)) Derives.termTailNil)
        Derives.exprTailNil)
  rw [← hval]
  exact evaluate_grammar_complete "1+2" _ hder (by rw [hval]; rfl)

example : tokenize "1+2" = [Token.num (NumLit.dec 1 1), Token.op Op.add, Token.num (NumLit.dec 2 1)] := by
  decide

example : tokenize "p i" = [Token.num NumLit.piL] := by decide

example : tokenize "1.2.3" = [Token.num (NumLit.dec 12 10)] := by decide

example : tokenize "." = [] := by decide

example : tokenize "2^3" = [Token.num (NumLit.dec 2 1), Token.op Op.pow, Token.num (NumLit.dec 3 1)] := by
  decide

example : tokenize "sin(90)" =
    [Token.func "sin", Token.lparen, Token.num (NumLit.dec 90 1), Token.rparen] := by decide

example : tokenize "abc" = [] := by decide

example : trimL "  x ".data = ['x'] := by decide

example : powJS (JSNum.fin 2) (JSNum.fin (-1)) = JSNum.fin (1/2) := by
  show (if (-1 : ℝ) = 0 then JSNum.fin 1 else
    if (2:ℝ) = 0 then (if 0 < (-1:ℝ) then JSNum.fin 0 else JSNum.inf)
    else if 0 < (2:ℝ) then JSNum.fin ((2:ℝ) ^ (-1:ℝ))
    else if ((⌊(-1:ℝ)⌋ : ℝ) = -1) then JSNum.fin ((2:ℝ) ^ ⌊(-1:ℝ)⌋)
    else JSNum.nan) = JSNum.fin (1/2)
  rw [if_neg (by norm_num), if_neg (by norm_num), if_pos (by norm_num)]
  rw [Real.rpow_neg_one]
  norm_num

example : powJS (JSNum.fin (-2)) (JSNum.fin 2) = JSNum.fin 4 := by
  show (if (2 : ℝ) = 0 then JSNum.fin 1 else
    if (-2:ℝ) = 0 then (if 0 < (2:ℝ) then JSNum.fin 0 else JSNum.inf)
    else if 0 < (-2:ℝ) then JSNum.fin ((-2:ℝ) ^ (2:ℝ))
    else if ((⌊(2:ℝ)⌋ : ℝ) = 2) then JSNum.fin ((-2:ℝ) ^ ⌊(2:ℝ)⌋)
    else JSNum.nan) = JSNum.fin 4
  have hfl : ⌊(2:ℝ)⌋ = 2 := by
    rw [show ((2:ℝ)) = ((2:ℤ):ℝ) by norm_num, Int.floor_intCast]
  rw [if_neg (by norm_num), if_neg (by norm_num), if_neg (by norm_num), if_pos (by rw [hfl]; norm_num)]
  rw [hfl]
  norm_num

example : callMathFunc "sin" [JSNum.fin (90/1)] = JSNum.fin 1 := by
  show sinJS (rad (JSNum.fin (90/1))) = JSNum.fin 1
  show sinJS (divJS (mulJS (JSNum.fin (90/1)) (JSNum.fin Real.pi)) (JSNum.fin 180)) = JSNum.fin 1
  show sinJS (if (180:ℝ) = 0 then (if (90/1 : ℝ) * Real.pi = 0 then JSNum.nan
      else if 0 < (90/1:ℝ) * Real.pi then JSNum.inf else JSNum.ninf)
    else JSNum.fin ((90/1:ℝ) * Real.pi / 180)) = JSNum.fin 1
  rw [if_neg (by norm_num)]
  show JSNum.fin (Real.sin ((90/1:ℝ) * Real.pi / 180)) = JSNum.fin 1
  rw [show ((90/1:ℝ) * Real.pi / 180) = Real.pi / 2 by ring]
  rw [Real.sin_pi_div_two]

example : minJS [JSNum.fin (3/1), JSNum.fin (1/1), JSNum.fin (2/1)] = JSNum.fin 1 := by
  show minJS2 (minJS2 (minJS2 JSNum.inf (JSNum.fin (3/1))) (JSNum.fin (1/1))) (JSNum.fin (2/1)) = JSNum.fin 1
  show JSNum.fin (min (min (3/1 : ℝ) (1/1)) (2/1)) = JSNum.fin 1
  norm_num

end Castomat
